import Mathlib

/-!
Verification of the session/plan scheduler of `src/web/app.js` (the `fc`
controller object together with `saveSession` / `tryResume`).

Shallow embedding conventions:
* The scheduler's mutable fields become the `FCState` structure; the
  persisted snapshot and the stream of backend reporting calls are carried
  alongside in `World`.  Every scheduler operation becomes a pure function
  `World → World`.
* The content provider (`get_word`) is modelled as an oracle
  `fetch : String → Option DictEntry` passed to every operation that may
  resolve a dictionary entry.  A `none` result models an unavailable or
  failing provider (the code degrades to "no entry" in that case).
* JavaScript `Set` objects (`fc.weakSet`) are insertion-ordered and
  duplicate-free; they are embedded as `List String` manipulated only through
  `setAdd` / `setDelete` / `jsSetOfList`, which reproduce `Set.add`,
  `Set.delete` and `new Set(array)` on duplicate-free lists.
* DOM manipulation (card faces, chat bubbles, progress bar, donut chart) has
  no effect on scheduler state and is omitted.  The `frontBusy` / `backBusy`
  re-entrancy flags are set and cleared inside a single operation; in this
  atomic single-threaded model they are always false at operation boundaries
  and are omitted as well.
* In the browser the items of the active group alias the `masterWords`
  objects during a first pass, so a resolved `entry` payload is also cached
  on the master list; this model uses value semantics and records entry
  resolution on `activeWords` and `current` only.  No claim observes the
  `entry` payloads of `masterWords`.
-/

namespace AppJs

/-- Dictionary payload returned by the content provider (`get_word`).  In the
browser this is a non-null object, hence always truthy when present. -/
structure DictEntry where
  data : String
deriving DecidableEq, Repr

/-- A plan item: `{ word: x.word, entry: x.entry || null }`. -/
structure PlanItem where
  word : String
  entry : Option DictEntry
deriving DecidableEq, Repr

/-- Stage: `fc.stage` only ever holds the strings "firstpass" and "weakloop". -/
inductive Stage where
  | firstpass
  | weakloop
deriving DecidableEq, Repr

/-- Per-item state of the heat map: "todo" | "ok" | "weak". -/
inductive SeenState where
  | todo
  | ok
  | weak
deriving DecidableEq, Repr

/-- The mutable fields of the `fc` controller object (app.js lines 137-150),
minus the DOM-only and re-entrancy bookkeeping. -/
structure FCState where
  mode : String
  masterWords : List PlanItem
  groupSize : Nat
  groupStart : Nat
  stage : Stage
  activeWords : List PlanItem
  activeIndex : Nat
  seenStates : List SeenState
  weakSet : List String
  current : Option PlanItem
  needVerify : Bool
deriving DecidableEq, Repr

/-- The snapshot written by `saveSession` (app.js lines 431-446). -/
structure Snapshot where
  mode : String
  masterWords : List PlanItem
  groupSize : Nat
  groupStart : Nat
  stage : Stage
  activeWords : List PlanItem
  activeIndex : Nat
  seenStates : List SeenState
  weakSet : List String
deriving DecidableEq, Repr

/-- Backend reporting calls fired by the scheduler, in program order.
`record_signal_tool`, `note_learn_event`, `commit_review`, `update_score`. -/
inductive BackendEvent where
  | signal (word kind ctx : String)
  | noteLearnEvent (word : String)
  | commitReview (word : String) (score : Rat)
  | updateScore (word : String) (score : Rat)
deriving DecidableEq, Repr

/-- The world a scheduler operation acts on: the in-memory controller state,
the durable session snapshot (`none` models both "cleared" and "absent"),
and the trace of backend reporting calls. -/
structure World where
  fc : FCState
  saved : Option Snapshot
  events : List BackendEvent
deriving DecidableEq, Repr

/-- Content-provider oracle: what `get_word` would return for a word. -/
def Fetch : Type := String → Option DictEntry

/-- Append one backend call to the trace. -/
def emit (e : BackendEvent) (w : World) : World :=
  { w with events := w.events ++ [e] }

/-- JS function `Set.add`: appends iff not already present (insertion order kept). -/
def setAdd (l : List String) (x : String) : List String :=
  if x ∈ l then l else l ++ [x]

/-- JS function `Set.delete`: removes the element.  On the duplicate-free lists this
model maintains it is exactly element removal. -/
def setDelete (l : List String) (x : String) : List String :=
  l.filter (fun y => y ≠ x)

/-- JS `new Set(array)`: deduplicates keeping first occurrences, in order. -/
def jsSetOfList (l : List String) : List String :=
  l.foldl setAdd []

/-- The string `mode + ":" + stage` used as signal context. -/
def stageString : Stage → String
  | Stage.firstpass => "firstpass"
  | Stage.weakloop => "weakloop"

def ctxString (s : FCState) : String :=
  s.mode ++ ":" ++ stageString s.stage

/-- The snapshot `saveSession` builds from the controller fields. -/
def snapOf (s : FCState) : Snapshot :=
  { mode := s.mode
    masterWords := s.masterWords
    groupSize := s.groupSize
    groupStart := s.groupStart
    stage := s.stage
    activeWords := s.activeWords
    activeIndex := s.activeIndex
    seenStates := s.seenStates
    weakSet := s.weakSet }

/-- Persistence: `saveSession(clear)` (app.js 431-446): persists `null` when clearing,
otherwise the snapshot of the current controller fields. -/
def saveSession (clear : Bool) (w : World) : World :=
  { w with saved := if clear then none else some (snapOf w.fc) }

/-- Heat-map reset: `fc.resetSeen(n)`: `Array(n).fill("todo")`. -/
def resetSeen (n : Nat) : List SeenState :=
  List.replicate n SeenState.todo

/-- Entry resolution: `fc._ensureCardData(w)` (app.js 415-419): fetch the entry iff absent;
a failing provider leaves it absent. -/
def ensureCardData (fetch : Fetch) (p : PlanItem) : PlanItem :=
  match p.entry with
  | some _ => p
  | none => { p with entry := fetch p.word }

/-- Resolve the entry of the item at position `i`, if any (the JS code
mutates the item object in place; positions past the end are untouched). -/
def resolveAt (fetch : Fetch) (l : List PlanItem) (i : Nat) : List PlanItem :=
  match l[i]? with
  | some p => l.set i (ensureCardData fetch p)
  | none => l

/-- Prefetch: `fc._prefetchNext(3)` (app.js 421-427): resolve entries of the next three
items when they exist. -/
def prefetchNext (fetch : Fetch) (l : List PlanItem) (idx : Nat) : List PlanItem :=
  resolveAt fetch (resolveAt fetch (resolveAt fetch l (idx + 1)) (idx + 2)) (idx + 3)

/-- The clamp `Math.max(0, Math.min(i, len - 1))` of `fc._show` (app.js 251). -/
def clampIdx (i : Int) (len : Nat) : Nat :=
  (max 0 (min i ((len : Int) - 1))).toNat

/-- Word of the currently shown item (`fc.current.word`); `""` only when no
card is shown, a state in which the browser code would fault. -/
def curWord (w : World) : String :=
  (w.fc.current.map PlanItem.word).getD ""

/-- Completion: `fc._finishPlan()` (app.js 242-247): announces completion (DOM only) and
clears the persisted session with `saveSession(true)`.  The in-memory
controller fields are left as they are. -/
def _finishPlan (w : World) : World :=
  saveSession true w

/-- Showing a card: `fc._show(i)` (app.js 249-271): on an empty working set, finish the plan;
otherwise clamp `i` into range, select the current item, resolve its entry,
prefetch the next three entries, record a `view_start` signal and persist. -/
def _show (fetch : Fetch) (i : Int) (w : World) : World :=
  if w.fc.activeWords.length = 0 then _finishPlan w
  else
    let idx := clampIdx i w.fc.activeWords.length
    let aw1 := resolveAt fetch w.fc.activeWords idx
    let aw2 := prefetchNext fetch aw1 idx
    let s := { w.fc with activeIndex := idx, activeWords := aw2,
                         current := aw2[idx]? }
    let w1 := emit (BackendEvent.signal
      ((s.current.map PlanItem.word).getD "") "view_start" (ctxString s))
      { w with fc := s }
    saveSession false w1

/-- The slice `masterWords.slice(groupStart, groupStart + groupSize)`. -/
def groupSliceOf (master : List PlanItem) (start size : Nat) : List PlanItem :=
  (master.drop start).take size

/-- Group start: `fc._startGroup()` (app.js 200-224): slice out the active group, reset the
stage to `firstpass`, clear the weak set, reset the heat map, show item 0
and persist.  The group counter strings are display only. -/
def _startGroup (fetch : Fetch) (w : World) : World :=
  let group := groupSliceOf w.fc.masterWords w.fc.groupStart w.fc.groupSize
  let s := { w.fc with stage := Stage.firstpass, activeWords := group,
                       activeIndex := 0, weakSet := [],
                       seenStates := resetSeen group.length }
  saveSession false (_show fetch 0 { w with fc := s })

/-- Group advance: `fc._nextGroup()` (app.js 236-240): advance `groupStart` by one group; if
the master list is exhausted the plan finishes, otherwise the next group
starts. -/
def _nextGroup (fetch : Fetch) (w : World) : World :=
  let s := { w.fc with groupStart := w.fc.groupStart + w.fc.groupSize }
  if s.masterWords.length ≤ s.groupStart then _finishPlan { w with fc := s }
  else _startGroup fetch { w with fc := s }

/-- The state rebuild at the head of `fc._startWeakLoop()` (app.js 228-231):
stage becomes `weakloop` and `activeWords` is rebuilt as one fresh
`{ word }` item (entry cleared) per weak word, heat map reset. -/
def weakRebuild (w : World) : World :=
  let aw := w.fc.weakSet.map (fun x => ({ word := x, entry := none } : PlanItem))
  { w with fc := { w.fc with stage := Stage.weakloop, activeWords := aw,
                             activeIndex := 0,
                             seenStates := resetSeen aw.length } }

/-- Weak-loop start: `fc._startWeakLoop()` (app.js 226-234): with an empty weak set, fall
through to the next group; otherwise rebuild the working set from the weak
words, show item 0 and persist. -/
def _startWeakLoop (fetch : Fetch) (w : World) : World :=
  if w.fc.weakSet.length = 0 then _nextGroup fetch w
  else saveSession false (_show fetch 0 (weakRebuild w))

/-- Advance: `fc._next()` (app.js 386-392): advance within the working set, else run
the stage machine at the end of the pass. -/
def _next (fetch : Fetch) (w : World) : World :=
  if w.fc.activeIndex + 1 < w.fc.activeWords.length then
    _show fetch ((w.fc.activeIndex : Int) + 1) w
  else if w.fc.stage = Stage.firstpass then _startWeakLoop fetch w
  else if 0 < w.fc.weakSet.length then _startWeakLoop fetch w
  else _nextGroup fetch w

/-- Front answer: `fc.markRemember(remembered)` (app.js 289-310): record the first-guess
signal, optimistically add the word to the weak set on "forgot", resolve
the entry of the current card (which in the browser is the same object as
`activeWords[activeIndex]`) and persist.  With no card shown the browser
code would fault on `this.current.word`; that state is modelled as a no-op
and never arises in the scenarios below. -/
def markRemember (fetch : Fetch) (remembered : Bool) (w : World) : World :=
  match w.fc.current with
  | none => w
  | some c =>
    let s0 := { w.fc with needVerify := remembered }
    let w1 := emit (BackendEvent.signal c.word
      (if remembered then "start_remember" else "start_forgot")
      (ctxString s0)) { w with fc := s0 }
    let s1 := if remembered then w1.fc
              else { w1.fc with weakSet := setAdd w1.fc.weakSet c.word }
    let s2 := { s1 with current := some (ensureCardData fetch c),
                        activeWords := resolveAt fetch s1.activeWords s1.activeIndex }
    saveSession false { w1 with fc := s2 }

/-- The state and trace updates of `fc.confirmCorrect(ok)` before it advances
(app.js 336-351): verification signal, heat-map update, weak-set update,
learned-today / commit-review / update-score reports. -/
def confirmCorrectMid (ok : Bool) (c : PlanItem) (w : World) : World :=
  let w1 := emit (BackendEvent.signal c.word "verify"
    (if ok then "verified_correct" else "verified_wrong")) w
  let seen1 := w1.fc.seenStates.set w1.fc.activeIndex
    (if ok then SeenState.ok else SeenState.weak)
  let s1 := { w1.fc with seenStates := seen1 }
  let s2 := if ok ∧ s1.stage = Stage.weakloop
            then { s1 with weakSet := setDelete s1.weakSet c.word } else s1
  let s3 := if ok then s2 else { s2 with weakSet := setAdd s2.weakSet c.word }
  let w2 := emit (BackendEvent.noteLearnEvent c.word) { w1 with fc := s3 }
  let w3 := emit (BackendEvent.commitReview c.word (if ok then 1 else 0)) w2
  emit (BackendEvent.updateScore c.word (if ok then 1 else 0)) w3

/-- Verification: `fc.confirmCorrect(ok)` (app.js 329-359): the verification outcome path,
which always ends by advancing through `fc._next()`. -/
def confirmCorrect (fetch : Fetch) (ok : Bool) (w : World) : World :=
  match w.fc.current with
  | none => w
  | some c => _next fetch (confirmCorrectMid ok c w)

/-- The state and trace updates of `fc.nextAfterShow()` before it advances
(app.js 367-376): uniformly a wrong answer. -/
def nextAfterShowMid (c : PlanItem) (w : World) : World :=
  let w1 := emit (BackendEvent.signal c.word "verify" "verified_wrong") w
  let seen1 := w1.fc.seenStates.set w1.fc.activeIndex SeenState.weak
  let s1 := { w1.fc with seenStates := seen1,
                         weakSet := setAdd w1.fc.weakSet c.word }
  let w2 := emit (BackendEvent.noteLearnEvent c.word) { w1 with fc := s1 }
  let w3 := emit (BackendEvent.commitReview c.word 0) w2
  emit (BackendEvent.updateScore c.word 0) w3

/-- Unverified advance: `fc.nextAfterShow()` (app.js 361-384): the never-claimed-to-remember
path, which always ends by advancing through `fc._next()`. -/
def nextAfterShow (fetch : Fetch) (w : World) : World :=
  match w.fc.current with
  | none => w
  | some c => _next fetch (nextAfterShowMid c w)

/-- Raw item of a plan-sourcing response. -/
structure RawItem where
  word : String
  entry : Option DictEntry
deriving DecidableEq, Repr

/-- Plan-sourcing response `{ok, items}`; a failed bridge call is `none`. -/
structure PlanResp where
  ok : Bool
  items : List RawItem
deriving DecidableEq, Repr

/-- Plan start: `fc._startWithList(list, mode)` (app.js 193-198). -/
def _startWithList (fetch : Fetch) (list : List PlanItem) (mode : String)
    (w : World) : World :=
  _startGroup fetch
    { w with fc := { w.fc with mode := mode, masterWords := list, groupStart := 0 } }

/-- The mapping `r.items.map(x => ({word: x.word, entry: x.entry || null}))`
(a dictionary entry object is never falsy, so this is the identity on the
optional entry). -/
def itemsOf (r : PlanResp) : List PlanItem :=
  r.items.map (fun x => { word := x.word, entry := x.entry })

/-- The shared guard `!r?.ok || !(r.items || []).length` of the three plan
loaders (app.js 156-191). -/
def badResp : Option PlanResp → Bool
  | none => true
  | some r => !r.ok || r.items.length = 0

/-- Loader: `fc.startDailyPlan(n)` (app.js 156-167): on an empty or failed sourcing
result only a chat notice is shown (no state change). -/
def startDailyPlan (fetch : Fetch) (r : Option PlanResp) (w : World) : World :=
  match r with
  | none => w
  | some r =>
    if !r.ok || r.items.length = 0 then w
    else _startWithList fetch (itemsOf r) "learn" w

/-- Loader: `fc.startReviewToday()` (app.js 169-177). -/
def startReviewToday (fetch : Fetch) (r : Option PlanResp) (w : World) : World :=
  match r with
  | none => w
  | some r =>
    if !r.ok || r.items.length = 0 then w
    else _startWithList fetch (itemsOf r) "review_today" w

/-- Loader: `fc.startReviewByScore(limit, learnedOnly)` (app.js 179-191). -/
def startReviewByScore (fetch : Fetch) (r : Option PlanResp) (w : World) : World :=
  match r with
  | none => w
  | some r =>
    if !r.ok || r.items.length = 0 then w
    else _startWithList fetch (itemsOf r) "review_score" w

/-- Resume: `tryResume()` (app.js 448-475) restricted to its scheduler effects: with
no stored state nothing happens; otherwise every controller field is
restored (with the code's falsy fallbacks: an empty `mode` falls back to
"idle", a zero `groupSize` to 10; `stage` is one of two non-empty strings,
arrays are always truthy, so those fallbacks are inert) and, when the
restored working set is non-empty, the stored item is shown again. -/
def resumedState (st : Snapshot) (w : World) : FCState :=
  { mode := if st.mode = "" then "idle" else st.mode
    masterWords := st.masterWords
    groupSize := if st.groupSize = 0 then 10 else st.groupSize
    groupStart := st.groupStart
    stage := st.stage
    activeWords := st.activeWords
    activeIndex := st.activeIndex
    seenStates := st.seenStates
    weakSet := jsSetOfList st.weakSet
    current := w.fc.current
    needVerify := w.fc.needVerify }

def tryResume (fetch : Fetch) (r : Option Snapshot) (w : World) : World :=
  match r with
  | none => w
  | some st =>
    let s := resumedState st w
    let w1 := { w with fc := s }
    if s.activeWords.length ≠ 0 then _show fetch (s.activeIndex : Int) w1 else w1

/-- The controller fields at page load (app.js 137-150). -/
def initFC : FCState :=
  { mode := "idle", masterWords := [], groupSize := 10, groupStart := 0,
    stage := Stage.firstpass, activeWords := [], activeIndex := 0,
    seenStates := [], weakSet := [], current := none, needVerify := false }

/-- A fresh world: page just loaded, no persisted session, no calls yet. -/
def initWorld : World :=
  { fc := initFC, saved := none, events := [] }

/-- One externally triggered scheduler operation: the three plan loaders
(with their sourcing response as input), the card actions, the ArrowRight
advance, and resuming from the persisted snapshot. -/
inductive Step (fetch : Fetch) : World → World → Prop
  | daily (r : Option PlanResp) (w : World) : Step fetch w (startDailyPlan fetch r w)
  | today (r : Option PlanResp) (w : World) : Step fetch w (startReviewToday fetch r w)
  | byScore (r : Option PlanResp) (w : World) : Step fetch w (startReviewByScore fetch r w)
  | remember (b : Bool) (w : World) : Step fetch w (markRemember fetch b w)
  | confirm (b : Bool) (w : World) : Step fetch w (confirmCorrect fetch b w)
  | nextShow (w : World) : Step fetch w (nextAfterShow fetch w)
  | arrow (w : World) : Step fetch w (_next fetch w)
  | resume (w : World) : Step fetch w (tryResume fetch w.saved w)

/-- Worlds reachable from a fresh page by scheduler operations. -/
inductive Reach (fetch : Fetch) : World → Prop
  | init : Reach fetch initWorld
  | step {w w' : World} : Reach fetch w → Step fetch w w' → Reach fetch w'

/-- Worlds reachable when every operation is taken while the plan has not
overshot its master list (no input after plan completion). -/
inductive ReachActive (fetch : Fetch) : World → Prop
  | init : ReachActive fetch initWorld
  | step {w w' : World} : ReachActive fetch w →
      w.fc.groupStart ≤ w.fc.masterWords.length → Step fetch w w' →
      ReachActive fetch w'

/-- The data-model invariant on a persisted snapshot (spec section 3). -/
def SnapInv (s : Snapshot) : Prop :=
  s.groupStart ≤ s.masterWords.length ∧
  (s.activeWords ≠ [] → s.activeIndex < s.activeWords.length) ∧
  s.seenStates.length = s.activeWords.length

instance (s : Snapshot) : Decidable (SnapInv s) := by
  unfold SnapInv; infer_instance

/-- A sample oracle: the content provider is unavailable. -/
def fetch0 : Fetch := fun _ => none

/-- A one-card sample world used by witnesses. -/
def itemA : PlanItem := { word := "alpha", entry := none }

def sampleW : World :=
  { fc := { initFC with activeWords := [itemA], current := some itemA,
                        seenStates := [SeenState.todo] },
    saved := none, events := [] }

/-- The sequence of groups a plan visits, read off the code: `fc._startGroup`
slices `masterWords[groupStart : groupStart + groupSize]` (here
`groupSliceOf`), and `fc._nextGroup` advances `groupStart` by `groupSize`,
finishing as soon as `groupStart >= masterWords.length`.  The `G = 0` escape
only makes the recursion well-founded; the code always runs with
`groupSize = 10`. -/
def visitGroupsFrom (master : List PlanItem) (G : Nat) (start : Nat) :
    List (List PlanItem) :=
  if master.length ≤ start ∨ G = 0 then []
  else groupSliceOf master start G :: visitGroupsFrom master G (start + G)
termination_by master.length - start
decreasing_by
  rename_i h
  push_neg at h
  omega

/-- A 12-item master list, as in the specification's worked scenario. -/
def master12 : List PlanItem :=
  (List.range 12).map (fun k => { word := "w" ++ toString k, entry := none })

/-- Sample world at the last item of a first pass with word "beta" weak. -/
def sampleWeakW : World :=
  { fc := { initFC with mode := "learn",
                        masterWords := [itemA, { word := "beta", entry := none }],
                        activeWords := [itemA, { word := "beta", entry := none }],
                        activeIndex := 1, groupStart := 0,
                        seenStates := [SeenState.ok, SeenState.weak],
                        weakSet := ["beta"],
                        current := some { word := "beta", entry := none } },
    saved := none, events := [] }

/-- Sample scheduler state for the round-trip witness. -/
def sampleS : FCState :=
  { mode := "learn", masterWords := [itemA], groupSize := 10, groupStart := 0,
    stage := Stage.weakloop, activeWords := [itemA], activeIndex := 0,
    seenStates := [SeenState.todo], weakSet := ["alpha"],
    current := some itemA, needVerify := true }

/-- Sample world in a weak loop over two words, verifying the first one. -/
def sampleLoopW : World :=
  { fc := { initFC with mode := "learn",
                        masterWords := [itemA, { word := "beta", entry := none }],
                        stage := Stage.weakloop,
                        activeWords := [itemA, { word := "beta", entry := none }],
                        activeIndex := 0,
                        seenStates := [SeenState.todo, SeenState.todo],
                        weakSet := ["alpha", "beta"],
                        current := some itemA, needVerify := true },
    saved := none, events := [] }

/-- The controller-state part of the inductive invariant. -/
abbrev FInvBase (s : FCState) : Prop :=
  (s.activeWords ≠ [] → s.activeIndex < s.activeWords.length) ∧
  s.seenStates.length = s.activeWords.length

abbrev StInv (w : World) : Prop := 0 < w.fc.groupSize ∧ FInvBase w.fc

/-- The full inductive invariant: a positive group size, a well-formed
controller state, and a well-formed persisted snapshot. -/
abbrev WInv (w : World) : Prop :=
  StInv w ∧ (∀ s, w.saved = some s → SnapInv s)

/-- A one-word daily plan response used for the C3 trace. -/
def cexResp : PlanResp := { ok := true, items := [{ word := "a", entry := none }] }

/-- Interaction trace violating the claim as stated: complete a one-word plan
(learn the word, fail it, re-verify it in the weak loop), then answer the
still-interactive card once more with "wrong".  The final `_startWeakLoop`
persists a snapshot carrying the completed plan's overshot `groupStart`. -/
def cexWorld : World :=
  confirmCorrect fetch0 false (confirmCorrect fetch0 true (markRemember fetch0 true
    (nextAfterShow fetch0 (markRemember fetch0 false
      (startDailyPlan fetch0 (some cexResp) initWorld)))))

/-- One learner decision on a shown card, `(remembered, verifiedOk)`: the
learner answers the front with `markRemember` and the back with
`confirmCorrect` when they claimed to remember, or `nextAfterShow` when they
did not (in which case the second component is irrelevant — the verify
buttons are hidden). -/
def itemAct (fetch : Fetch) (a : Bool × Bool) (w : World) : World :=
  let w1 := markRemember fetch a.1 w
  if a.1 then confirmCorrect fetch a.2 w1 else nextAfterShow fetch w1

/-- Run `n` per-item decisions, each chosen by the shown word. -/
def runPassAux (fetch : Fetch) (act : String → Bool × Bool) :
    Nat → World → World
  | 0, w => w
  | k + 1, w => runPassAux fetch act k (itemAct fetch (act (curWord w)) w)

/-- Run one full pass over the active working set. -/
def runWeakPass (fetch : Fetch) (act : String → Bool × Bool) (w : World) :
    World :=
  runPassAux fetch act w.fc.activeWords.length w

/-- Run passes `0, 1, …, n-1`, pass `n` acting by `acts n`. -/
def iterPasses (fetch : Fetch) (acts : Nat → String → Bool × Bool) :
    Nat → World → World
  | 0, w => w
  | n + 1, w => runWeakPass fetch (acts n) (iterPasses fetch acts n w)

/-- A decision clears an item iff the learner claimed to remember and then
verified correct. -/
def correctOf (a : Bool × Bool) : Bool := a.1 && a.2

/-- The pure pass-level recurrence: pass `n` keeps exactly the words not
cleared by `acts n`. -/
def weakPasses (acts : Nat → String → Bool × Bool) (S : List String) :
    Nat → List String
  | 0 => S
  | n + 1 => (weakPasses acts S n).filter (fun x => !(correctOf (acts n x)))

/-- The scheduler is `k` items into a weak-loop pass whose word list is `S`
and whose per-item decisions are `act`: the first `k` words have been
resolved (kept iff not cleared), the rest are still pending. -/
def MidPass (act : String → Bool × Bool) (S : List String) (k : Nat)
    (w : World) : Prop :=
  w.fc.stage = Stage.weakloop ∧
  w.fc.activeWords.map PlanItem.word = S ∧
  w.fc.activeIndex = k ∧
  k < S.length ∧
  w.fc.current = w.fc.activeWords[k]? ∧
  w.fc.weakSet
    = (S.take k).filter (fun x => !(correctOf (act x))) ++ S.drop k

instance (act : String → Bool × Bool) (S : List String) (k : Nat) (w : World) :
    Decidable (MidPass act S k w) := by
  unfold MidPass; infer_instance

/-- The pre-advance state of one complete card interaction: front answer
`a.1`, then the appropriate back answer. -/
def backOpMid (fetch : Fetch) (a : Bool × Bool) (c : PlanItem) (w : World) :
    World :=
  if a.1 then
    confirmCorrectMid a.2 (ensureCardData fetch c) (markRemember fetch a.1 w)
  else nextAfterShowMid (ensureCardData fetch c) (markRemember fetch a.1 w)

/-- Start-of-weak-loop world over the single word "alpha". -/
def sampleC8W : World :=
  { fc := { initFC with mode := "learn", masterWords := [itemA],
                        stage := Stage.weakloop, activeWords := [itemA],
                        activeIndex := 0, seenStates := [SeenState.todo],
                        weakSet := ["alpha"], current := some itemA,
                        needVerify := false },
    saved := none, events := [] }

/-- A learner who always claims to remember and always verifies correct. -/
def actsAllCorrect : Nat → String → Bool × Bool := fun _ _ => (true, true)

/-! ### Lemmas and claim theorems -/

@[simp] lemma snapOf_mode (s : FCState) : (snapOf s).mode = s.mode := rfl

@[simp] lemma snapOf_masterWords (s : FCState) :
    (snapOf s).masterWords = s.masterWords := rfl

@[simp] lemma snapOf_groupSize (s : FCState) :
    (snapOf s).groupSize = s.groupSize := rfl

@[simp] lemma snapOf_groupStart (s : FCState) :
    (snapOf s).groupStart = s.groupStart := rfl

@[simp] lemma snapOf_stage (s : FCState) : (snapOf s).stage = s.stage := rfl

@[simp] lemma snapOf_activeWords (s : FCState) :
    (snapOf s).activeWords = s.activeWords := rfl

@[simp] lemma snapOf_activeIndex (s : FCState) :
    (snapOf s).activeIndex = s.activeIndex := rfl

@[simp] lemma snapOf_seenStates (s : FCState) :
    (snapOf s).seenStates = s.seenStates := rfl

@[simp] lemma snapOf_weakSet (s : FCState) : (snapOf s).weakSet = s.weakSet := rfl

lemma snapInv_of_state (s : FCState)
    (h1 : s.groupStart ≤ s.masterWords.length)
    (h2 : s.activeWords ≠ [] → s.activeIndex < s.activeWords.length)
    (h3 : s.seenStates.length = s.activeWords.length) : SnapInv (snapOf s) := by
  refine ⟨?_, ?_, ?_⟩
  · simpa using h1
  · simpa using h2
  · simpa using h3

lemma emit_fc (e : BackendEvent) (w : World) : (emit e w).fc = w.fc := rfl

lemma saveSession_fc (c : Bool) (w : World) : (saveSession c w).fc = w.fc := rfl

lemma ensureCardData_word (f : Fetch) (p : PlanItem) :
    (ensureCardData f p).word = p.word := by
  unfold ensureCardData; cases p.entry <;> rfl

lemma set_self_of_getElem {α : Type} (l : List α) (i : Nat) (a : α)
    (h : l[i]? = some a) : l.set i a = l := by
  induction l generalizing i with
  | nil => simp at h
  | cons b t ih =>
    cases i with
    | zero => simp at h; simp [h]
    | succ i => simp at h; simp [ih i h]

lemma resolveAt_length (f : Fetch) (l : List PlanItem) (i : Nat) :
    (resolveAt f l i).length = l.length := by
  unfold resolveAt; cases l[i]? <;> simp

lemma resolveAt_map_word (f : Fetch) (l : List PlanItem) (i : Nat) :
    (resolveAt f l i).map PlanItem.word = l.map PlanItem.word := by
  unfold resolveAt
  cases h : l[i]? with
  | none => rfl
  | some p =>
    rw [List.map_set, ensureCardData_word]
    exact set_self_of_getElem _ i _ (by simp [h])

lemma prefetchNext_length (f : Fetch) (l : List PlanItem) (i : Nat) :
    (prefetchNext f l i).length = l.length := by
  unfold prefetchNext; simp [resolveAt_length]

lemma prefetchNext_map_word (f : Fetch) (l : List PlanItem) (i : Nat) :
    (prefetchNext f l i).map PlanItem.word = l.map PlanItem.word := by
  unfold prefetchNext; simp [resolveAt_map_word]

lemma clampIdx_lt (i : Int) (len : Nat) (h : 0 < len) : clampIdx i len < len := by
  unfold clampIdx; omega

lemma clampIdx_coe (i len : Nat) (h : i < len) : clampIdx (i : Int) len = i := by
  unfold clampIdx; omega

lemma clampIdx_zero (len : Nat) (h : 0 < len) : clampIdx 0 len = 0 := by
  unfold clampIdx; omega

/-- Everything `fc._show` does to the controller state, stated for a
non-empty working set. -/
lemma show_spec (f : Fetch) (i : Int) (w : World)
    (h : w.fc.activeWords.length ≠ 0) :
    (_show f i w).fc.mode = w.fc.mode ∧
    (_show f i w).fc.masterWords = w.fc.masterWords ∧
    (_show f i w).fc.groupSize = w.fc.groupSize ∧
    (_show f i w).fc.groupStart = w.fc.groupStart ∧
    (_show f i w).fc.stage = w.fc.stage ∧
    (_show f i w).fc.seenStates = w.fc.seenStates ∧
    (_show f i w).fc.weakSet = w.fc.weakSet ∧
    (_show f i w).fc.needVerify = w.fc.needVerify ∧
    (_show f i w).fc.activeIndex = clampIdx i w.fc.activeWords.length ∧
    (_show f i w).fc.activeWords.map PlanItem.word
      = w.fc.activeWords.map PlanItem.word ∧
    (_show f i w).fc.activeWords.length = w.fc.activeWords.length ∧
    (_show f i w).fc.current
      = (_show f i w).fc.activeWords[(_show f i w).fc.activeIndex]? ∧
    (_show f i w).saved = some (snapOf (_show f i w).fc) ∧
    (_show f i w).events = w.events ++
      [BackendEvent.signal (curWord (_show f i w)) "view_start"
        (ctxString (_show f i w).fc)] := by
  unfold _show
  rw [if_neg h]
  refine ⟨rfl, rfl, rfl, rfl, rfl, rfl, rfl, rfl, rfl, ?_, ?_, rfl, rfl, rfl⟩
  · simp [saveSession, emit, prefetchNext_map_word, resolveAt_map_word]
  · simp [saveSession, emit, prefetchNext_length, resolveAt_length]

lemma show_of_empty (f : Fetch) (i : Int) (w : World)
    (h : w.fc.activeWords.length = 0) : _show f i w = _finishPlan w := by
  unfold _show; rw [if_pos h]

/-- Fact: `fc._show` never touches the weak set (in either branch). -/
lemma show_weakSet (f : Fetch) (i : Int) (w : World) :
    (_show f i w).fc.weakSet = w.fc.weakSet := by
  by_cases h : w.fc.activeWords.length = 0
  · rw [show_of_empty f i w h]; rfl
  · exact (show_spec f i w h).2.2.2.2.2.2.1

/-- Fact: `fc._show` never changes the stage. -/
lemma show_stage (f : Fetch) (i : Int) (w : World) :
    (_show f i w).fc.stage = w.fc.stage := by
  by_cases h : w.fc.activeWords.length = 0
  · rw [show_of_empty f i w h]; rfl
  · exact (show_spec f i w h).2.2.2.2.1

/-- Fact: `fc._show` never changes the heat map. -/
lemma show_seenStates (f : Fetch) (i : Int) (w : World) :
    (_show f i w).fc.seenStates = w.fc.seenStates := by
  by_cases h : w.fc.activeWords.length = 0
  · rw [show_of_empty f i w h]; rfl
  · exact (show_spec f i w h).2.2.2.2.2.1

/-- C7: at the start of every group's first pass — that is, after every
invocation of `fc._startGroup()` — the weak set is empty and the stage is
`firstpass`, regardless of which words prior groups left in it. -/
theorem claim_C7 (fetch : Fetch) (w : World) :
    (_startGroup fetch w).fc.weakSet = [] ∧
    (_startGroup fetch w).fc.stage = Stage.firstpass := by
  unfold _startGroup
  constructor
  · rw [saveSession_fc, show_weakSet]
  · rw [saveSession_fc, show_stage]

/-- C9: a plan start whose sourcing call fails (`none`), reports failure
(`ok = false`), or returns an empty item list is a no-op on the whole
world: controller fields, persisted snapshot and backend trace are all
left untouched, for each of the three plan loaders. -/
theorem claim_C9 (fetch : Fetch) (w : World) :
    startDailyPlan fetch none w = w ∧
    startReviewToday fetch none w = w ∧
    startReviewByScore fetch none w = w ∧
    (∀ items : List RawItem,
      startDailyPlan fetch (some (PlanResp.mk false items)) w = w ∧
      startReviewToday fetch (some (PlanResp.mk false items)) w = w ∧
      startReviewByScore fetch (some (PlanResp.mk false items)) w = w) ∧
    startDailyPlan fetch (some (PlanResp.mk true [])) w = w ∧
    startReviewToday fetch (some (PlanResp.mk true [])) w = w ∧
    startReviewByScore fetch (some (PlanResp.mk true [])) w = w := by
  refine ⟨rfl, rfl, rfl, ?_, ?_, ?_, ?_⟩
  · intro items
    refine ⟨?_, ?_, ?_⟩ <;>
      simp [startDailyPlan, startReviewToday, startReviewByScore]
  all_goals simp [startDailyPlan, startReviewToday, startReviewByScore]

/-- C10: showing item `i` (any integer, also negative or out of range) on a
non-empty working set clamps the index into `[0, length - 1]` and makes the
current card the item at the clamped position; on an empty working set no
indexing happens and the plan is finished instead. -/
theorem claim_C10 (fetch : Fetch) (i : Int) (w : World) :
    (w.fc.activeWords ≠ [] →
      (_show fetch i w).fc.activeIndex < (_show fetch i w).fc.activeWords.length ∧
      (_show fetch i w).fc.activeWords.length = w.fc.activeWords.length ∧
      (_show fetch i w).fc.current
        = (_show fetch i w).fc.activeWords[(_show fetch i w).fc.activeIndex]?) ∧
    (w.fc.activeWords = [] → _show fetch i w = _finishPlan w) := by
  constructor
  · intro hne
    have hlen : w.fc.activeWords.length ≠ 0 := by
      simpa [List.length_eq_zero] using hne
    obtain ⟨-, -, -, -, -, -, -, -, hidx, -, hlen2, hcur, -, -⟩ :=
      show_spec fetch i w hlen
    refine ⟨?_, hlen2, hcur⟩
    rw [hidx, hlen2]
    exact clampIdx_lt i _ (Nat.pos_of_ne_zero hlen)
  · intro he
    exact show_of_empty fetch i w (by simp [he])

theorem claim_C10_witness :
    (sampleW.fc.activeWords ≠ [] ∧
      ((_show fetch0 (-5) sampleW).fc.activeIndex
          < (_show fetch0 (-5) sampleW).fc.activeWords.length ∧
        (_show fetch0 (-5) sampleW).fc.activeWords.length
          = sampleW.fc.activeWords.length ∧
        (_show fetch0 (-5) sampleW).fc.current
          = (_show fetch0 (-5) sampleW).fc.activeWords[
              (_show fetch0 (-5) sampleW).fc.activeIndex]?)) ∧
    (initWorld.fc.activeWords = [] ∧
      _show fetch0 3 initWorld = _finishPlan initWorld) :=
  ⟨⟨by decide, (claim_C10 fetch0 (-5) sampleW).1 (by decide)⟩,
   ⟨rfl, (claim_C10 fetch0 3 initWorld).2 rfl⟩⟩

lemma visitGroupsFrom_of_le (master : List PlanItem) (G start : Nat)
    (h : master.length ≤ start) : visitGroupsFrom master G start = [] := by
  unfold visitGroupsFrom; rw [if_pos (Or.inl h)]

lemma visitGroupsFrom_of_lt (master : List PlanItem) (G start : Nat)
    (hG : 0 < G) (h : start < master.length) :
    visitGroupsFrom master G start
      = groupSliceOf master start G :: visitGroupsFrom master G (start + G) := by
  conv_lhs => rw [visitGroupsFrom]
  rw [if_neg (by omega)]

lemma visitGroupsFrom_length (master : List PlanItem) (G : Nat) (hG : 0 < G) :
    ∀ n start, master.length - start ≤ n →
      (visitGroupsFrom master G start).length
        = (master.length - start + G - 1) / G := by
  intro n
  induction n with
  | zero =>
    intro start h
    rw [visitGroupsFrom_of_le master G start (by omega)]
    have h0 : master.length - start = 0 := by omega
    rw [h0]
    exact (Nat.div_eq_of_lt (by omega)).symm
  | succ n ih =>
    intro start h
    by_cases hle : master.length ≤ start
    · rw [visitGroupsFrom_of_le master G start hle]
      have h0 : master.length - start = 0 := by omega
      rw [h0]
      exact (Nat.div_eq_of_lt (by omega)).symm
    · push_neg at hle
      rw [visitGroupsFrom_of_lt master G start hG hle]
      rw [List.length_cons, ih (start + G) (by omega)]
      have ha : master.length - start + G - 1 = (master.length - start - 1) + G := by
        omega
      rw [ha, Nat.add_div_right _ hG]
      by_cases hc : master.length - start ≤ G
      · have e1 : master.length - (start + G) = 0 := by omega
        rw [e1]
        have d1 : (0 + G - 1) / G = 0 := Nat.div_eq_of_lt (by omega)
        have d2 : (master.length - start - 1) / G = 0 := Nat.div_eq_of_lt (by omega)
        omega
      · have e2 : master.length - (start + G) + G - 1 = master.length - start - 1 := by
          omega
        rw [e2]

lemma visitGroupsFrom_join (master : List PlanItem) (G : Nat) (hG : 0 < G) :
    ∀ n start, master.length - start ≤ n →
      (visitGroupsFrom master G start).flatten = master.drop start := by
  intro n
  induction n with
  | zero =>
    intro start h
    rw [visitGroupsFrom_of_le master G start (by omega)]
    rw [List.drop_eq_nil_of_le (by omega)]
    rfl
  | succ n ih =>
    intro start h
    by_cases hle : master.length ≤ start
    · rw [visitGroupsFrom_of_le master G start hle]
      rw [List.drop_eq_nil_of_le (by omega)]
      rfl
    · push_neg at hle
      rw [visitGroupsFrom_of_lt master G start hG hle]
      rw [List.flatten_cons, ih (start + G) (by omega)]
      unfold groupSliceOf
      have hdd : master.drop (start + G) = (master.drop start).drop G := by
        rw [List.drop_drop, Nat.add_comm]
      rw [hdd]
      exact List.take_append_drop G (master.drop start)

/-- C2: for a non-empty master list of length `L` and group size `G > 0`, a
plan that runs to completion visits exactly `ceil(L / G)` groups — stated as
the count `(L + G - 1) / G` together with the sandwich
`L ≤ G * count < L + G` that characterises the ceiling — and the visited
group slices concatenate back to the master list, so every word of the
master list appears in exactly one group's first pass. -/
theorem claim_C2 (master : List PlanItem) (G : Nat) (hG : 0 < G)
    (_hne : master ≠ []) :
    (visitGroupsFrom master G 0).length = (master.length + G - 1) / G ∧
    master.length ≤ G * (visitGroupsFrom master G 0).length ∧
    G * (visitGroupsFrom master G 0).length < master.length + G ∧
    (visitGroupsFrom master G 0).flatten = master := by
  have hlen := visitGroupsFrom_length master G hG master.length 0 (by omega)
  have hjoin := visitGroupsFrom_join master G hG master.length 0 (by omega)
  simp only [Nat.sub_zero] at hlen
  refine ⟨hlen, ?_, ?_, by simpa using hjoin⟩
  · rw [hlen]
    have := Nat.div_add_mod (master.length + G - 1) G
    have hmod := Nat.mod_lt (master.length + G - 1) hG
    omega
  · rw [hlen]
    have := Nat.div_add_mod (master.length + G - 1) G
    have hmod := Nat.mod_lt (master.length + G - 1) hG
    omega

theorem claim_C2_witness :
    0 < 10 ∧ master12 ≠ [] ∧
    ((visitGroupsFrom master12 10 0).length = (master12.length + 10 - 1) / 10 ∧
      master12.length ≤ 10 * (visitGroupsFrom master12 10 0).length ∧
      10 * (visitGroupsFrom master12 10 0).length < master12.length + 10 ∧
      (visitGroupsFrom master12 10 0).flatten = master12) :=
  ⟨by decide, by decide, claim_C2 master12 10 (by decide) (by decide)⟩

lemma mem_setAdd_self (l : List String) (x : String) : x ∈ setAdd l x := by
  unfold setAdd; split
  · assumption
  · simp

lemma mem_setAdd_of_mem (l : List String) (x y : String) (h : y ∈ l) :
    y ∈ setAdd l x := by
  unfold setAdd; split
  · exact h
  · simp [h]

/-- C6: with a card shown and the learner never having claimed to remember,
`fc.nextAfterShow()` classifies the outcome as wrong: it appends exactly a
`verified_wrong` verification signal, the learned-today event and the two
score reports with score 0.0 to the backend trace, marks the item's heat-map
slot `weak`, adds the word to the weak set, and then advances through
`fc._next()`. -/
theorem claim_C6 (fetch : Fetch) (w : World) (c : PlanItem)
    (h : w.fc.current = some c) :
    nextAfterShow fetch w = _next fetch (nextAfterShowMid c w) ∧
    (nextAfterShowMid c w).fc.seenStates
      = w.fc.seenStates.set w.fc.activeIndex SeenState.weak ∧
    c.word ∈ (nextAfterShowMid c w).fc.weakSet ∧
    (nextAfterShowMid c w).events = w.events ++
      [BackendEvent.signal c.word "verify" "verified_wrong",
       BackendEvent.noteLearnEvent c.word,
       BackendEvent.commitReview c.word 0,
       BackendEvent.updateScore c.word 0] := by
  refine ⟨?_, rfl, ?_, ?_⟩
  · unfold nextAfterShow; rw [h]
  · exact mem_setAdd_self _ _
  · simp [nextAfterShowMid, emit]

/-- What `fc._startWeakLoop()` produces when the weak set is non-empty. -/
lemma startWeakLoop_spec (fetch : Fetch) (w : World) (h : w.fc.weakSet ≠ []) :
    _startWeakLoop fetch w = saveSession false (_show fetch 0 (weakRebuild w)) ∧
    (_startWeakLoop fetch w).fc.stage = Stage.weakloop ∧
    (_startWeakLoop fetch w).fc.activeIndex = 0 ∧
    (_startWeakLoop fetch w).fc.seenStates = resetSeen w.fc.weakSet.length ∧
    (_startWeakLoop fetch w).fc.activeWords.map PlanItem.word = w.fc.weakSet := by
  have hlen : w.fc.weakSet.length ≠ 0 := by
    simpa [List.length_eq_zero] using h
  have heq : _startWeakLoop fetch w
      = saveSession false (_show fetch 0 (weakRebuild w)) := by
    unfold _startWeakLoop; rw [if_neg hlen]
  have hrb : (weakRebuild w).fc.activeWords.length ≠ 0 := by
    simp [weakRebuild, hlen]
  obtain ⟨-, -, -, -, hstage, hseen, -, -, hidx, hmap, -, -, -, -⟩ :=
    show_spec fetch 0 (weakRebuild w) hrb
  rw [heq]
  refine ⟨rfl, ?_, ?_, ?_, ?_⟩
  · rw [saveSession_fc, hstage]; rfl
  · rw [saveSession_fc, hidx]
    exact clampIdx_zero _ (Nat.pos_of_ne_zero hrb)
  · rw [saveSession_fc, hseen]
    simp [weakRebuild, resetSeen]
  · rw [saveSession_fc, hmap]
    have hcomp : (PlanItem.word ∘ fun x => ({ word := x, entry := none } : PlanItem))
        = id := rfl
    simp [weakRebuild, hcomp]

lemma startWeakLoop_of_empty (fetch : Fetch) (w : World)
    (h : w.fc.weakSet = []) : _startWeakLoop fetch w = _nextGroup fetch w := by
  unfold _startWeakLoop; rw [if_pos (by simp [h])]

/-- C1: advancing past the last item of the active working set follows the
stage machine exactly.  In `firstpass` with a non-empty weak set the session
enters `weakloop`: `activeWords` is rebuilt as one fresh `{word}` item per
weak word (entry cleared), `activeIndex` is reset to 0, the heat map is reset
to all-`todo` of the new (weak-set) length; with an empty weak set the group
completes through `fc._nextGroup()`.  In `weakloop` a non-empty weak set
starts another pass over the current (shrunk) weak set, and an empty one
advances to the next group. -/
theorem claim_C1 (fetch : Fetch) (w : World)
    (hlast : ¬ (w.fc.activeIndex + 1 < w.fc.activeWords.length)) :
    (w.fc.stage = Stage.firstpass → w.fc.weakSet ≠ [] →
      _next fetch w = saveSession false (_show fetch 0 (weakRebuild w)) ∧
      (weakRebuild w).fc.activeWords
        = w.fc.weakSet.map (fun x => ({ word := x, entry := none } : PlanItem)) ∧
      (_next fetch w).fc.stage = Stage.weakloop ∧
      (_next fetch w).fc.activeIndex = 0 ∧
      (_next fetch w).fc.seenStates = resetSeen w.fc.weakSet.length ∧
      (_next fetch w).fc.activeWords.map PlanItem.word = w.fc.weakSet) ∧
    (w.fc.stage = Stage.firstpass → w.fc.weakSet = [] →
      _next fetch w = _nextGroup fetch w) ∧
    (w.fc.stage = Stage.weakloop → w.fc.weakSet ≠ [] →
      _next fetch w = saveSession false (_show fetch 0 (weakRebuild w)) ∧
      (_next fetch w).fc.stage = Stage.weakloop ∧
      (_next fetch w).fc.activeIndex = 0 ∧
      (_next fetch w).fc.seenStates = resetSeen w.fc.weakSet.length ∧
      (_next fetch w).fc.activeWords.map PlanItem.word = w.fc.weakSet) ∧
    (w.fc.stage = Stage.weakloop → w.fc.weakSet = [] →
      _next fetch w = _nextGroup fetch w) := by
  refine ⟨?_, ?_, ?_, ?_⟩
  · intro hs hws
    have heq : _next fetch w = _startWeakLoop fetch w := by
      unfold _next; rw [if_neg hlast, if_pos hs]
    obtain ⟨e, s1, s2, s3, s4⟩ := startWeakLoop_spec fetch w hws
    rw [heq]
    exact ⟨e, rfl, s1, s2, s3, s4⟩
  · intro hs hws
    have heq : _next fetch w = _startWeakLoop fetch w := by
      unfold _next; rw [if_neg hlast, if_pos hs]
    rw [heq]
    exact startWeakLoop_of_empty fetch w hws
  · intro hs hws
    have hpos : 0 < w.fc.weakSet.length :=
      List.length_pos.mpr hws
    have heq : _next fetch w = _startWeakLoop fetch w := by
      unfold _next
      rw [if_neg hlast, if_neg (by simp [hs]), if_pos hpos]
    obtain ⟨e, s1, s2, s3, s4⟩ := startWeakLoop_spec fetch w hws
    rw [heq]
    exact ⟨e, s1, s2, s3, s4⟩
  · intro hs hws
    unfold _next
    rw [if_neg hlast, if_neg (by simp [hs]), if_neg (by simp [hws])]

theorem claim_C1_witness :
    (¬ (sampleWeakW.fc.activeIndex + 1 < sampleWeakW.fc.activeWords.length)) ∧
    (sampleWeakW.fc.stage = Stage.firstpass ∧ sampleWeakW.fc.weakSet ≠ []) ∧
    (_next fetch0 sampleWeakW
        = saveSession false (_show fetch0 0 (weakRebuild sampleWeakW)) ∧
      (weakRebuild sampleWeakW).fc.activeWords
        = sampleWeakW.fc.weakSet.map
            (fun x => ({ word := x, entry := none } : PlanItem)) ∧
      (_next fetch0 sampleWeakW).fc.stage = Stage.weakloop ∧
      (_next fetch0 sampleWeakW).fc.activeIndex = 0 ∧
      (_next fetch0 sampleWeakW).fc.seenStates
        = resetSeen sampleWeakW.fc.weakSet.length ∧
      (_next fetch0 sampleWeakW).fc.activeWords.map PlanItem.word
        = sampleWeakW.fc.weakSet) :=
  ⟨by decide, ⟨rfl, by decide⟩,
    (claim_C1 fetch0 sampleWeakW (by decide)).1 rfl (by decide)⟩

theorem claim_C6_witness :
    sampleW.fc.current = some itemA ∧
    (nextAfterShow fetch0 sampleW = _next fetch0 (nextAfterShowMid itemA sampleW) ∧
      (nextAfterShowMid itemA sampleW).fc.seenStates
        = sampleW.fc.seenStates.set sampleW.fc.activeIndex SeenState.weak ∧
      itemA.word ∈ (nextAfterShowMid itemA sampleW).fc.weakSet ∧
      (nextAfterShowMid itemA sampleW).events = sampleW.events ++
        [BackendEvent.signal itemA.word "verify" "verified_wrong",
         BackendEvent.noteLearnEvent itemA.word,
         BackendEvent.commitReview itemA.word 0,
         BackendEvent.updateScore itemA.word 0]) :=
  ⟨rfl, claim_C6 fetch0 sampleW itemA rfl⟩

lemma mem_setAdd_iff (l : List String) (x y : String) :
    y ∈ setAdd l x ↔ y ∈ l ∨ y = x := by
  unfold setAdd; split
  · rename_i hx
    constructor
    · exact Or.inl
    · rintro (h | rfl)
      · exact h
      · exact hx
  · simp

lemma mem_setDelete_iff (l : List String) (x y : String) :
    y ∈ setDelete l x ↔ y ∈ l ∧ y ≠ x := by
  unfold setDelete; simp

lemma mem_foldl_setAdd (x : String) :
    ∀ (l acc : List String), x ∈ l.foldl setAdd acc ↔ x ∈ acc ∨ x ∈ l := by
  intro l
  induction l with
  | nil => simp
  | cons a t ih =>
    intro acc
    rw [List.foldl_cons, ih (setAdd acc a), mem_setAdd_iff]
    simp only [List.mem_cons]
    tauto

lemma mem_jsSetOfList (l : List String) (x : String) :
    x ∈ jsSetOfList l ↔ x ∈ l := by
  unfold jsSetOfList
  rw [mem_foldl_setAdd]
  simp

lemma weakRebuild_weakSet (w : World) :
    (weakRebuild w).fc.weakSet = w.fc.weakSet := rfl

lemma startWeakLoop_weakSet_of_ne (fetch : Fetch) (w : World)
    (h : w.fc.weakSet ≠ []) :
    (_startWeakLoop fetch w).fc.weakSet = w.fc.weakSet := by
  have hlen : w.fc.weakSet.length ≠ 0 := by
    simpa [List.length_eq_zero] using h
  unfold _startWeakLoop
  rw [if_neg hlen, saveSession_fc, show_weakSet, weakRebuild_weakSet]

/-- Fact: `fc._next` never drops a word from the weak set: the only group change it
can trigger requires the weak set to be empty already. -/
lemma next_weakSet_of_mem (fetch : Fetch) (w : World) (x : String)
    (hx : x ∈ w.fc.weakSet) : x ∈ (_next fetch w).fc.weakSet := by
  have hne : w.fc.weakSet ≠ [] := by
    intro h0; rw [h0] at hx; simp at hx
  unfold _next
  split
  · rw [show_weakSet]; exact hx
  split
  · rw [startWeakLoop_weakSet_of_ne fetch w hne]; exact hx
  split
  · rw [startWeakLoop_weakSet_of_ne fetch w hne]; exact hx
  · rename_i hlen
    exact absurd (List.length_pos.mpr hne) hlen

lemma markRemember_weakSet (fetch : Fetch) (b : Bool) (w : World) (c : PlanItem)
    (h : w.fc.current = some c) :
    (markRemember fetch b w).fc.weakSet
      = if b then w.fc.weakSet else setAdd w.fc.weakSet c.word := by
  unfold markRemember
  rw [h]
  cases b <;> simp [emit, saveSession]

lemma confirmCorrectMid_weakSet (ok : Bool) (c : PlanItem) (w : World) :
    (confirmCorrectMid ok c w).fc.weakSet
      = if ok then
          (if w.fc.stage = Stage.weakloop then setDelete w.fc.weakSet c.word
           else w.fc.weakSet)
        else setAdd w.fc.weakSet c.word := by
  unfold confirmCorrectMid
  cases ok with
  | false => simp [emit]
  | true =>
    by_cases hs : w.fc.stage = Stage.weakloop <;> simp [emit, hs]

lemma confirmCorrectMid_stage (ok : Bool) (c : PlanItem) (w : World) :
    (confirmCorrectMid ok c w).fc.stage = w.fc.stage := by
  unfold confirmCorrectMid
  by_cases hs : w.fc.stage = Stage.weakloop <;> cases ok <;> simp [emit, hs]

/-- C4: restoring the snapshot that `saveSession` wrote for a scheduler state
(one whose mode string is non-empty and whose index is in range, as every
state the scheduler produces is) reproduces `mode, groupStart, stage,
activeIndex, seenStates` exactly, and `weakSet` up to set equality. -/
theorem claim_C4 (fetch : Fetch) (w : World) (s : FCState)
    (hmode : s.mode ≠ "")
    (hidx : s.activeWords ≠ [] → s.activeIndex < s.activeWords.length) :
    (tryResume fetch (some (snapOf s)) w).fc.mode = s.mode ∧
    (tryResume fetch (some (snapOf s)) w).fc.groupStart = s.groupStart ∧
    (tryResume fetch (some (snapOf s)) w).fc.stage = s.stage ∧
    (tryResume fetch (some (snapOf s)) w).fc.activeIndex = s.activeIndex ∧
    (tryResume fetch (some (snapOf s)) w).fc.seenStates = s.seenStates ∧
    (∀ x, x ∈ (tryResume fetch (some (snapOf s)) w).fc.weakSet ↔ x ∈ s.weakSet) := by
  have hrs : resumedState (snapOf s) w
      = { s with mode := s.mode, groupSize := if s.groupSize = 0 then 10 else s.groupSize,
                 weakSet := jsSetOfList s.weakSet,
                 current := w.fc.current, needVerify := w.fc.needVerify } := by
    unfold resumedState snapOf
    simp [hmode]
  have hred : tryResume fetch (some (snapOf s)) w
      = (if (resumedState (snapOf s) w).activeWords.length ≠ 0 then
          _show fetch ((resumedState (snapOf s) w).activeIndex : Int)
            { w with fc := resumedState (snapOf s) w }
        else { w with fc := resumedState (snapOf s) w }) := rfl
  by_cases hne : (resumedState (snapOf s) w).activeWords.length = 0
  · rw [hred, if_neg (by simpa using hne)]
    rw [hrs]
    refine ⟨rfl, rfl, rfl, rfl, rfl, ?_⟩
    intro x
    exact mem_jsSetOfList _ _
  · rw [hred, if_pos (by simpa using hne)]
    set w1 : World := { w with fc := resumedState (snapOf s) w } with hw1
    have hlen : w1.fc.activeWords.length ≠ 0 := hne
    obtain ⟨m1, -, -, g1, st1, se1, wk1, -, ai1, -, -, -, -, -⟩ :=
      show_spec fetch ((resumedState (snapOf s) w).activeIndex : Int) w1 hlen
    have hfc : w1.fc = resumedState (snapOf s) w := rfl
    have hsw : s.activeWords ≠ [] := by
      intro h0
      apply hne
      rw [hrs, h0]
      rfl
    refine ⟨?_, ?_, ?_, ?_, ?_, ?_⟩
    · rw [m1, hfc, hrs]
    · rw [g1, hfc, hrs]
    · rw [st1, hfc, hrs]
    · rw [ai1, hfc, hrs]
      have : s.activeIndex < s.activeWords.length := hidx hsw
      exact clampIdx_coe _ _ this
    · rw [se1, hfc, hrs]
    · intro x
      rw [wk1, hfc, hrs]
      exact mem_jsSetOfList _ _

theorem claim_C4_witness :
    sampleS.mode ≠ "" ∧
    (sampleS.activeWords ≠ [] → sampleS.activeIndex < sampleS.activeWords.length) ∧
    ((tryResume fetch0 (some (snapOf sampleS)) initWorld).fc.mode = sampleS.mode ∧
      (tryResume fetch0 (some (snapOf sampleS)) initWorld).fc.groupStart
        = sampleS.groupStart ∧
      (tryResume fetch0 (some (snapOf sampleS)) initWorld).fc.stage = sampleS.stage ∧
      (tryResume fetch0 (some (snapOf sampleS)) initWorld).fc.activeIndex
        = sampleS.activeIndex ∧
      (tryResume fetch0 (some (snapOf sampleS)) initWorld).fc.seenStates
        = sampleS.seenStates ∧
      (∀ x, x ∈ (tryResume fetch0 (some (snapOf sampleS)) initWorld).fc.weakSet
        ↔ x ∈ sampleS.weakSet)) :=
  ⟨by decide, fun _ => by decide,
    claim_C4 fetch0 initWorld sampleS (by decide) (fun _ => by decide)⟩

/-- C5: weak-set membership rule.  A word enters the weak set on a "forgot"
signal (`markRemember(false)`) and on a wrong verification
(`confirmCorrect(false)`).  Across every per-item card operation
(`markRemember`, `nextAfterShow`, `_next`, `confirmCorrect`), the only way a
word already in the weak set can leave it is a correct verification taken
while the stage is `weakloop`, and then only for the word being verified; a
correct verification during the first pass removes nothing. -/
theorem claim_C5 (fetch : Fetch) (w : World) :
    (∀ c, w.fc.current = some c →
      c.word ∈ (markRemember fetch false w).fc.weakSet) ∧
    (∀ c, w.fc.current = some c →
      c.word ∈ (confirmCorrect fetch false w).fc.weakSet) ∧
    (∀ x b, x ∈ w.fc.weakSet → x ∈ (markRemember fetch b w).fc.weakSet) ∧
    (∀ x, x ∈ w.fc.weakSet → x ∈ (nextAfterShow fetch w).fc.weakSet) ∧
    (∀ x, x ∈ w.fc.weakSet → x ∈ (_next fetch w).fc.weakSet) ∧
    (∀ x b, x ∈ w.fc.weakSet → x ∉ (confirmCorrect fetch b w).fc.weakSet →
      b = true ∧ w.fc.stage = Stage.weakloop ∧
      ∃ c, w.fc.current = some c ∧ c.word = x) ∧
    (w.fc.stage = Stage.firstpass →
      ∀ x, x ∈ w.fc.weakSet → x ∈ (confirmCorrect fetch true w).fc.weakSet) := by
  refine ⟨?_, ?_, ?_, ?_, ?_, ?_, ?_⟩
  · intro c hc
    rw [markRemember_weakSet fetch false w c hc]
    simp [mem_setAdd_self]
  · intro c hc
    unfold confirmCorrect
    rw [hc]
    apply next_weakSet_of_mem
    rw [confirmCorrectMid_weakSet]
    simp [mem_setAdd_self]
  · intro x b hx
    cases hc : w.fc.current with
    | none => unfold markRemember; rw [hc]; exact hx
    | some c =>
      rw [markRemember_weakSet fetch b w c hc]
      cases b with
      | false => simp [mem_setAdd_of_mem _ _ _ hx]
      | true => simpa using hx
  · intro x hx
    cases hc : w.fc.current with
    | none => unfold nextAfterShow; rw [hc]; exact hx
    | some c =>
      unfold nextAfterShow
      rw [hc]
      apply next_weakSet_of_mem
      show x ∈ (nextAfterShowMid c w).fc.weakSet
      unfold nextAfterShowMid
      simp only [emit]
      exact mem_setAdd_of_mem _ _ _ hx
  · intro x hx
    exact next_weakSet_of_mem fetch w x hx
  · intro x b hx hout
    cases hc : w.fc.current with
    | none =>
      exfalso; apply hout
      unfold confirmCorrect; rw [hc]; exact hx
    | some c =>
      unfold confirmCorrect at hout
      rw [hc] at hout
      cases b with
      | false =>
        exfalso; apply hout
        apply next_weakSet_of_mem
        rw [confirmCorrectMid_weakSet]
        simp [mem_setAdd_of_mem _ _ _ hx]
      | true =>
        by_cases hs : w.fc.stage = Stage.weakloop
        · by_cases hxc : x = c.word
          · exact ⟨rfl, hs, c, rfl, hxc.symm⟩
          · exfalso; apply hout
            apply next_weakSet_of_mem
            rw [confirmCorrectMid_weakSet]
            simp [hs, mem_setDelete_iff, hx, hxc]
        · exfalso; apply hout
          apply next_weakSet_of_mem
          rw [confirmCorrectMid_weakSet]
          simp [hs, hx]
  · intro hs x hx
    cases hc : w.fc.current with
    | none => unfold confirmCorrect; rw [hc]; exact hx
    | some c =>
      unfold confirmCorrect
      rw [hc]
      apply next_weakSet_of_mem
      rw [confirmCorrectMid_weakSet]
      simp [hs, hx]

theorem claim_C5_witness :
    ("alpha" ∈ sampleLoopW.fc.weakSet ∧
      "alpha" ∉ (confirmCorrect fetch0 true sampleLoopW).fc.weakSet) ∧
    (true = true ∧ sampleLoopW.fc.stage = Stage.weakloop ∧
      ∃ c, sampleLoopW.fc.current = some c ∧ c.word = "alpha") ∧
    ("beta" ∈ sampleLoopW.fc.weakSet ∧
      "beta" ∈ (_next fetch0 sampleLoopW).fc.weakSet) :=
  ⟨⟨by decide, by decide⟩,
    (claim_C5 fetch0 sampleLoopW).2.2.2.2.2.1 "alpha" true (by decide) (by decide),
    ⟨by decide, (claim_C5 fetch0 sampleLoopW).2.2.2.2.1 "beta" (by decide)⟩⟩

/-- Fields `fc._show` leaves untouched, in both of its branches. -/
lemma show_preserves (f : Fetch) (i : Int) (w : World) :
    (_show f i w).fc.mode = w.fc.mode ∧
    (_show f i w).fc.masterWords = w.fc.masterWords ∧
    (_show f i w).fc.groupSize = w.fc.groupSize ∧
    (_show f i w).fc.groupStart = w.fc.groupStart ∧
    (_show f i w).fc.stage = w.fc.stage ∧
    (_show f i w).fc.seenStates = w.fc.seenStates ∧
    (_show f i w).fc.weakSet = w.fc.weakSet ∧
    (_show f i w).fc.activeWords.length = w.fc.activeWords.length := by
  by_cases h : w.fc.activeWords.length = 0
  · rw [show_of_empty f i w h]
    exact ⟨rfl, rfl, rfl, rfl, rfl, rfl, rfl, rfl⟩
  · obtain ⟨h1, h2, h3, h4, h5, h6, h7, -, -, -, h8, -, -, -⟩ := show_spec f i w h
    exact ⟨h1, h2, h3, h4, h5, h6, h7, h8⟩

lemma WInv_of_save_false (w : World) (hst : StInv w)
    (hgs : w.fc.groupStart ≤ w.fc.masterWords.length) :
    WInv (saveSession false w) := by
  refine ⟨hst, ?_⟩
  intro s hs
  simp only [saveSession, if_neg (by simp : ¬ (false = true))] at hs
  cases hs
  exact snapInv_of_state _ hgs hst.2.1 hst.2.2

lemma WInv_of_fields (w : World) (hst : StInv w)
    (hgs : w.fc.groupStart ≤ w.fc.masterWords.length)
    (hsv : w.saved = some (snapOf w.fc)) : WInv w := by
  refine ⟨hst, ?_⟩
  intro s hs
  rw [hsv] at hs
  cases hs
  exact snapInv_of_state _ hgs hst.2.1 hst.2.2

lemma WInv_finishPlan (w : World) (hst : StInv w) : WInv (_finishPlan w) := by
  refine ⟨hst, ?_⟩
  intro s hs
  simp [_finishPlan, saveSession] at hs

lemma WInv_show (fetch : Fetch) (i : Int) (w : World) (hst : StInv w)
    (hgs : w.fc.groupStart ≤ w.fc.masterWords.length) :
    WInv (_show fetch i w) := by
  by_cases h : w.fc.activeWords.length = 0
  · rw [show_of_empty fetch i w h]
    exact WInv_finishPlan w hst
  · obtain ⟨-, hm, hg, hgp, -, hse, -, -, hidx, -, hlen, -, hsv, -⟩ :=
      show_spec fetch i w h
    have hst' : StInv (_show fetch i w) := by
      refine ⟨?_, ?_, ?_⟩
      · rw [hg]; exact hst.1
      · intro _
        rw [hidx, hlen]
        exact clampIdx_lt i _ (Nat.pos_of_ne_zero h)
      · rw [hse, hlen]
        exact hst.2.2
    refine ⟨hst', ?_⟩
    intro s hs
    rw [hsv] at hs
    cases hs
    exact snapInv_of_state _ (by rw [hgp, hm]; exact hgs) hst'.2.1 hst'.2.2

lemma WInv_showSave (fetch : Fetch) (i : Int) (w : World) (hst : StInv w)
    (hgs : w.fc.groupStart ≤ w.fc.masterWords.length) :
    WInv (saveSession false (_show fetch i w)) := by
  have h1 := WInv_show fetch i w hst hgs
  obtain ⟨-, hm, -, hgp, -, -, -, -⟩ := show_preserves fetch i w
  exact WInv_of_save_false _ h1.1 (by rw [hgp, hm]; exact hgs)

lemma WInv_startGroup (fetch : Fetch) (w : World) (hgz : 0 < w.fc.groupSize)
    (hgs : w.fc.groupStart ≤ w.fc.masterWords.length) :
    WInv (_startGroup fetch w) := by
  unfold _startGroup
  apply WInv_showSave
  · refine ⟨hgz, ?_, ?_⟩
    · intro hne
      simpa [List.length_pos] using List.length_pos.mpr hne
    · simp [resetSeen]
  · exact hgs

lemma nextGroup_eq (fetch : Fetch) (w : World) :
    _nextGroup fetch w =
      if w.fc.masterWords.length ≤ w.fc.groupStart + w.fc.groupSize
      then _finishPlan
        { w with fc := { w.fc with groupStart := w.fc.groupStart + w.fc.groupSize } }
      else _startGroup fetch
        { w with fc := { w.fc with groupStart := w.fc.groupStart + w.fc.groupSize } } :=
  rfl

lemma WInv_nextGroup (fetch : Fetch) (w : World) (hgz : 0 < w.fc.groupSize)
    (hF : FInvBase w.fc) : WInv (_nextGroup fetch w) := by
  rw [nextGroup_eq]
  split
  · exact WInv_finishPlan _ ⟨hgz, hF⟩
  · rename_i hlt
    push_neg at hlt
    exact WInv_startGroup fetch _ hgz (le_of_lt hlt)

lemma WInv_startWeakLoop (fetch : Fetch) (w : World) (hgz : 0 < w.fc.groupSize)
    (hF : FInvBase w.fc) (hgs : w.fc.groupStart ≤ w.fc.masterWords.length) :
    WInv (_startWeakLoop fetch w) := by
  unfold _startWeakLoop
  split
  · exact WInv_nextGroup fetch w hgz hF
  · rename_i hne
    apply WInv_showSave
    · refine ⟨hgz, ?_, ?_⟩
      · intro h
        simp [weakRebuild]
        omega
      · simp [weakRebuild, resetSeen]
    · exact hgs

lemma WInv_next (fetch : Fetch) (w : World) (hst : StInv w)
    (hgs : w.fc.groupStart ≤ w.fc.masterWords.length) :
    WInv (_next fetch w) := by
  unfold _next
  split
  · exact WInv_show fetch _ w hst hgs
  split
  · exact WInv_startWeakLoop fetch w hst.1 hst.2 hgs
  split
  · exact WInv_startWeakLoop fetch w hst.1 hst.2 hgs
  · exact WInv_nextGroup fetch w hst.1 hst.2

/-- The world produced by `markRemember` on a shown card: scheduler fields
other than `needVerify`, `weakSet`, `current` and the `activeWords` entries
are untouched, and the result is persisted. -/
lemma markRemember_fields (fetch : Fetch) (b : Bool) (w : World) (c : PlanItem)
    (h : w.fc.current = some c) :
    (markRemember fetch b w).fc.groupSize = w.fc.groupSize ∧
    (markRemember fetch b w).fc.groupStart = w.fc.groupStart ∧
    (markRemember fetch b w).fc.masterWords = w.fc.masterWords ∧
    (markRemember fetch b w).fc.activeIndex = w.fc.activeIndex ∧
    (markRemember fetch b w).fc.activeWords.length = w.fc.activeWords.length ∧
    (markRemember fetch b w).fc.seenStates = w.fc.seenStates ∧
    (markRemember fetch b w).saved = some (snapOf (markRemember fetch b w).fc) := by
  unfold markRemember
  rw [h]
  cases b <;> simp [emit, saveSession, resolveAt_length]

lemma WInv_markRemember (fetch : Fetch) (b : Bool) (w : World) (hW : WInv w)
    (hgs : w.fc.groupStart ≤ w.fc.masterWords.length) :
    WInv (markRemember fetch b w) := by
  cases hc : w.fc.current with
  | none =>
    have : markRemember fetch b w = w := by unfold markRemember; rw [hc]
    rw [this]; exact hW
  | some c =>
    obtain ⟨f1, f2, f3, f4, f5, f6, f7⟩ := markRemember_fields fetch b w c hc
    have hst : StInv (markRemember fetch b w) := by
      refine ⟨by rw [f1]; exact hW.1.1, ?_, ?_⟩
      · intro hne
        rw [f4, f5]
        apply hW.1.2.1
        intro h0
        apply hne
        rw [← List.length_eq_zero, f5, List.length_eq_zero] at *
        exact h0
      · rw [f6, f5]; exact hW.1.2.2
    exact WInv_of_fields _ hst (by rw [f2, f3]; exact hgs) f7

/-- Scheduler fields `confirmCorrectMid` leaves untouched, plus its heat-map
update; it does not persist anything itself. -/
lemma confirmCorrectMid_fields (ok : Bool) (c : PlanItem) (w : World) :
    (confirmCorrectMid ok c w).fc.groupSize = w.fc.groupSize ∧
    (confirmCorrectMid ok c w).fc.groupStart = w.fc.groupStart ∧
    (confirmCorrectMid ok c w).fc.masterWords = w.fc.masterWords ∧
    (confirmCorrectMid ok c w).fc.activeIndex = w.fc.activeIndex ∧
    (confirmCorrectMid ok c w).fc.activeWords = w.fc.activeWords ∧
    (confirmCorrectMid ok c w).fc.seenStates
      = w.fc.seenStates.set w.fc.activeIndex
          (if ok then SeenState.ok else SeenState.weak) ∧
    (confirmCorrectMid ok c w).saved = w.saved := by
  unfold confirmCorrectMid
  by_cases hs : w.fc.stage = Stage.weakloop <;> cases ok <;> simp [emit, hs]

lemma WInv_confirmCorrect (fetch : Fetch) (b : Bool) (w : World) (hW : WInv w)
    (hgs : w.fc.groupStart ≤ w.fc.masterWords.length) :
    WInv (confirmCorrect fetch b w) := by
  cases hc : w.fc.current with
  | none =>
    have : confirmCorrect fetch b w = w := by unfold confirmCorrect; rw [hc]
    rw [this]; exact hW
  | some c =>
    have : confirmCorrect fetch b w = _next fetch (confirmCorrectMid b c w) := by
      unfold confirmCorrect; rw [hc]
    rw [this]
    obtain ⟨f1, f2, f3, f4, f5, f6, -⟩ := confirmCorrectMid_fields b c w
    apply WInv_next
    · refine ⟨by rw [f1]; exact hW.1.1, ?_, ?_⟩
      · intro hne
        rw [f4, f5]
        apply hW.1.2.1
        intro h0
        apply hne
        rw [f5, h0]
      · rw [f6, f5, List.length_set]; exact hW.1.2.2
    · rw [f2, f3]; exact hgs

/-- Scheduler fields `nextAfterShowMid` leaves untouched, plus its heat-map
update; it does not persist anything itself. -/
lemma nextAfterShowMid_fields (c : PlanItem) (w : World) :
    (nextAfterShowMid c w).fc.groupSize = w.fc.groupSize ∧
    (nextAfterShowMid c w).fc.groupStart = w.fc.groupStart ∧
    (nextAfterShowMid c w).fc.masterWords = w.fc.masterWords ∧
    (nextAfterShowMid c w).fc.activeIndex = w.fc.activeIndex ∧
    (nextAfterShowMid c w).fc.activeWords = w.fc.activeWords ∧
    (nextAfterShowMid c w).fc.seenStates
      = w.fc.seenStates.set w.fc.activeIndex SeenState.weak ∧
    (nextAfterShowMid c w).saved = w.saved := by
  unfold nextAfterShowMid
  simp [emit]

lemma WInv_nextAfterShow (fetch : Fetch) (w : World) (hW : WInv w)
    (hgs : w.fc.groupStart ≤ w.fc.masterWords.length) :
    WInv (nextAfterShow fetch w) := by
  cases hc : w.fc.current with
  | none =>
    have : nextAfterShow fetch w = w := by unfold nextAfterShow; rw [hc]
    rw [this]; exact hW
  | some c =>
    have : nextAfterShow fetch w = _next fetch (nextAfterShowMid c w) := by
      unfold nextAfterShow; rw [hc]
    rw [this]
    obtain ⟨f1, f2, f3, f4, f5, f6, -⟩ := nextAfterShowMid_fields c w
    apply WInv_next
    · refine ⟨by rw [f1]; exact hW.1.1, ?_, ?_⟩
      · intro hne
        rw [f4, f5]
        apply hW.1.2.1
        intro h0
        apply hne
        rw [f5, h0]
      · rw [f6, f5, List.length_set]; exact hW.1.2.2
    · rw [f2, f3]; exact hgs

lemma startDailyPlan_some_eq (fetch : Fetch) (r : PlanResp) (w : World) :
    startDailyPlan fetch (some r) w =
      if !r.ok || r.items.length = 0 then w
      else _startWithList fetch (itemsOf r) "learn" w := rfl

lemma startReviewToday_some_eq (fetch : Fetch) (r : PlanResp) (w : World) :
    startReviewToday fetch (some r) w =
      if !r.ok || r.items.length = 0 then w
      else _startWithList fetch (itemsOf r) "review_today" w := rfl

lemma startReviewByScore_some_eq (fetch : Fetch) (r : PlanResp) (w : World) :
    startReviewByScore fetch (some r) w =
      if !r.ok || r.items.length = 0 then w
      else _startWithList fetch (itemsOf r) "review_score" w := rfl

lemma WInv_startWithList (fetch : Fetch) (list : List PlanItem) (mode : String)
    (w : World) (hgz : 0 < w.fc.groupSize) :
    WInv (_startWithList fetch list mode w) := by
  unfold _startWithList
  exact WInv_startGroup fetch _ hgz (by simp)

lemma tryResume_some_eq (fetch : Fetch) (st : Snapshot) (w : World) :
    tryResume fetch (some st) w =
      if (resumedState st w).activeWords.length ≠ 0 then
        _show fetch ((resumedState st w).activeIndex : Int)
          { w with fc := resumedState st w }
      else { w with fc := resumedState st w } := rfl

lemma resumedState_groupSize (st : Snapshot) (w : World) :
    (resumedState st w).groupSize = if st.groupSize = 0 then 10 else st.groupSize :=
  rfl

lemma WInv_tryResume (fetch : Fetch) (w : World) (hW : WInv w) :
    WInv (tryResume fetch w.saved w) := by
  cases hs : w.saved with
  | none => exact hW
  | some st =>
    have hinv : SnapInv st := hW.2 st hs
    rw [tryResume_some_eq]
    have hst' : StInv { w with fc := resumedState st w } := by
      refine ⟨?_, ?_, ?_⟩
      · show 0 < (resumedState st w).groupSize
        rw [resumedState_groupSize]
        split <;> omega
      · intro h
        exact hinv.2.1 h
      · exact hinv.2.2
    split
    · apply WInv_show _ _ _ hst'
      exact hinv.1
    · refine ⟨hst', ?_⟩
      intro s hsv
      exact hW.2 s (hs.symm ▸ hsv)

/-- Every world reachable without post-completion input satisfies the
invariant `WInv`. -/
lemma reachActive_WInv (fetch : Fetch) (w : World) (h : ReachActive fetch w) :
    WInv w := by
  induction h with
  | init =>
    refine ⟨⟨by decide, by decide, by decide⟩, ?_⟩
    intro s hs
    simp [initWorld] at hs
  | step hr hgs hstep ih =>
    cases hstep with
    | daily r w1 =>
      cases r with
      | none => exact ih
      | some r =>
        rw [startDailyPlan_some_eq]
        split
        · exact ih
        · exact WInv_startWithList fetch _ _ _ ih.1.1
    | today r w1 =>
      cases r with
      | none => exact ih
      | some r =>
        rw [startReviewToday_some_eq]
        split
        · exact ih
        · exact WInv_startWithList fetch _ _ _ ih.1.1
    | byScore r w1 =>
      cases r with
      | none => exact ih
      | some r =>
        rw [startReviewByScore_some_eq]
        split
        · exact ih
        · exact WInv_startWithList fetch _ _ _ ih.1.1
    | remember b w1 => exact WInv_markRemember fetch b _ ih hgs
    | confirm b w1 => exact WInv_confirmCorrect fetch b _ ih hgs
    | nextShow w1 => exact WInv_nextAfterShow fetch _ ih hgs
    | arrow w1 => exact WInv_next fetch _ ih.1 hgs
    | resume w1 => exact WInv_tryResume fetch _ ih

/-- C3 (amended): along any sequence of scheduler operations in which no
operation is taken after the plan has completed (i.e. every step starts from
a world with `groupStart ≤ masterWords.length`), every non-null persisted
snapshot satisfies the data-model invariant; in particular the in-memory
overshoot of `groupStart` at plan completion is never persisted, because
completion saves `null`. -/
theorem claim_C3 (fetch : Fetch) (w : World) (hw : ReachActive fetch w) :
    ∀ s, w.saved = some s → SnapInv s :=
  (reachActive_WInv fetch w hw).2

/-- The claim as stated — over all scheduler-operation sequences — is false:
`cexWorld` is reachable, yet its persisted snapshot has `groupStart = 10`
with a master list of length 1. -/
theorem claim_C3_counterexample :
    Reach fetch0 cexWorld ∧
    cexWorld.saved = some (snapOf cexWorld.fc) ∧
    (snapOf cexWorld.fc).groupStart = 10 ∧
    (snapOf cexWorld.fc).masterWords.length = 1 ∧
    ¬ (∀ s, cexWorld.saved = some s → SnapInv s) := by
  refine ⟨?_, by decide, by decide, by decide, ?_⟩
  · exact Reach.step (Reach.step (Reach.step (Reach.step (Reach.step
      (Reach.step Reach.init (Step.daily (some cexResp) initWorld))
      (Step.remember false _)) (Step.nextShow _)) (Step.remember true _))
      (Step.confirm true _)) (Step.confirm false _)
  · intro hall
    exact absurd (hall (snapOf cexWorld.fc) (by decide)) (by decide)

theorem claim_C3_witness :
    SnapInv (snapOf (startDailyPlan fetch0 (some cexResp) initWorld).fc) :=
  claim_C3 fetch0 (startDailyPlan fetch0 (some cexResp) initWorld)
    (ReachActive.step ReachActive.init (by decide) (Step.daily (some cexResp) initWorld))
    (snapOf (startDailyPlan fetch0 (some cexResp) initWorld).fc) (by decide)

lemma setAdd_of_mem (l : List String) (x : String) (h : x ∈ l) :
    setAdd l x = l := by
  unfold setAdd; rw [if_pos h]

lemma getElem?_resolveAt_self (f : Fetch) (l : List PlanItem) (k : Nat) :
    (resolveAt f l k)[k]? = (l[k]?).map (ensureCardData f) := by
  unfold resolveAt
  cases h : l[k]? with
  | none => simp [h]
  | some p =>
    have hk : k < l.length := by
      by_contra hk
      rw [List.getElem?_eq_none (by omega)] at h
      cases h
    simp [h, List.getElem?_set_self (by simpa using hk)]

lemma not_mem_take_of_nodup (S : List String) (k : Nat) (x : String)
    (hnd : S.Nodup) (hx : S[k]? = some x) : x ∉ S.take k := by
  intro hmem
  have hk : k < S.length := by
    by_contra hk
    rw [List.getElem?_eq_none (by omega)] at hx
    cases hx
  have hsplit : S.take k ++ S.drop k = S := List.take_append_drop k S
  have hdrop : S.drop k = x :: S.drop (k + 1) := by
    rw [List.drop_eq_getElem_cons hk]
    congr 1
    have := List.getElem?_eq_getElem hk
    rw [this] at hx
    exact (Option.some.injEq _ _).mp hx
  rw [← hsplit, hdrop] at hnd
  obtain ⟨-, -, hdisj⟩ := List.nodup_append.mp hnd
  exact hdisj hmem (by simp)

lemma not_mem_drop_succ_of_nodup (S : List String) (k : Nat) (x : String)
    (hnd : S.Nodup) (hx : S[k]? = some x) : x ∉ S.drop (k + 1) := by
  intro hmem
  have hk : k < S.length := by
    by_contra hk
    rw [List.getElem?_eq_none (by omega)] at hx
    cases hx
  have hsplit : S.take k ++ S.drop k = S := List.take_append_drop k S
  have hdrop : S.drop k = x :: S.drop (k + 1) := by
    rw [List.drop_eq_getElem_cons hk]
    congr 1
    have := List.getElem?_eq_getElem hk
    rw [this] at hx
    exact (Option.some.injEq _ _).mp hx
  rw [← hsplit, hdrop] at hnd
  obtain ⟨-, hnd2, -⟩ := List.nodup_append.mp hnd
  exact (List.nodup_cons.mp hnd2).1 hmem

lemma setDelete_append_cons (A B : List String) (x : String)
    (hA : x ∉ A) (hB : x ∉ B) : setDelete (A ++ x :: B) x = A ++ B := by
  unfold setDelete
  rw [List.filter_append, List.filter_cons]
  have h1 : A.filter (fun y => y ≠ x) = A := by
    rw [List.filter_eq_self]
    intro a ha
    simp only [ne_eq, decide_not, Bool.not_eq_eq_eq_not, Bool.not_true,
      decide_eq_false_iff_not]
    intro h
    exact hA (h ▸ ha)
  have h2 : B.filter (fun y => y ≠ x) = B := by
    rw [List.filter_eq_self]
    intro b hb
    simp only [ne_eq, decide_not, Bool.not_eq_eq_eq_not, Bool.not_true,
      decide_eq_false_iff_not]
    intro h
    exact hB (h ▸ hb)
  rw [h1, h2]
  simp

lemma markRemember_more (fetch : Fetch) (b : Bool) (w : World) (c : PlanItem)
    (h : w.fc.current = some c) :
    (markRemember fetch b w).fc.stage = w.fc.stage ∧
    (markRemember fetch b w).fc.current = some (ensureCardData fetch c) ∧
    (markRemember fetch b w).fc.activeWords
      = resolveAt fetch w.fc.activeWords w.fc.activeIndex := by
  unfold markRemember
  rw [h]
  cases b <;> simp [emit, saveSession]

lemma nextAfterShowMid_stage (c : PlanItem) (w : World) :
    (nextAfterShowMid c w).fc.stage = w.fc.stage := by
  unfold nextAfterShowMid; simp [emit]

lemma nextAfterShowMid_weakSet (c : PlanItem) (w : World) :
    (nextAfterShowMid c w).fc.weakSet = setAdd w.fc.weakSet c.word := by
  unfold nextAfterShowMid; simp [emit]

lemma nextAfterShowMid_current (c : PlanItem) (w : World) :
    (nextAfterShowMid c w).fc.current = w.fc.current := by
  unfold nextAfterShowMid; simp [emit]

lemma confirmCorrectMid_current (ok : Bool) (c : PlanItem) (w : World) :
    (confirmCorrectMid ok c w).fc.current = w.fc.current := by
  unfold confirmCorrectMid
  by_cases hs : w.fc.stage = Stage.weakloop <;> cases ok <;> simp [emit, hs]

/-- A complete card interaction is the pre-advance state followed by
`fc._next()`. -/
lemma itemAct_eq_next (fetch : Fetch) (a : Bool × Bool) (w : World)
    (c : PlanItem) (h : w.fc.current = some c) :
    itemAct fetch a w = _next fetch (backOpMid fetch a c w) := by
  obtain ⟨-, hcur, -⟩ := markRemember_more fetch a.1 w c h
  unfold itemAct backOpMid
  cases ha : a.1 with
  | false =>
    simp only [Bool.false_eq_true, if_false]
    unfold nextAfterShow
    rw [ha] at hcur
    rw [hcur]
  | true =>
    simp only [if_true]
    unfold confirmCorrect
    rw [ha] at hcur
    rw [hcur]

/-- What one complete card interaction does to the scheduler fields the pass
invariant tracks, before advancing. -/
lemma backOpMid_fields (fetch : Fetch) (a : Bool × Bool) (w : World)
    (c : PlanItem) (h : w.fc.current = some c) :
    (backOpMid fetch a c w).fc.stage = w.fc.stage ∧
    (backOpMid fetch a c w).fc.activeWords.map PlanItem.word
      = w.fc.activeWords.map PlanItem.word ∧
    (backOpMid fetch a c w).fc.activeIndex = w.fc.activeIndex ∧
    (backOpMid fetch a c w).fc.activeWords.length
      = w.fc.activeWords.length := by
  obtain ⟨hst, hcur, haw⟩ := markRemember_more fetch a.1 w c h
  obtain ⟨-, -, -, f4m, -, -, -⟩ := markRemember_fields fetch a.1 w c h
  unfold backOpMid
  cases ha : a.1 with
  | false =>
    simp only [Bool.false_eq_true, if_false]
    rw [ha] at hst haw f4m
    obtain ⟨-, -, -, g4, g5, -, -⟩ :=
      nextAfterShowMid_fields (ensureCardData fetch c) (markRemember fetch false w)
    refine ⟨?_, ?_, ?_, ?_⟩
    · rw [nextAfterShowMid_stage, hst]
    · rw [g5, haw, resolveAt_map_word]
    · rw [g4, f4m]
    · rw [g5, haw, resolveAt_length]
  | true =>
    simp only [if_true]
    rw [ha] at hst haw f4m
    obtain ⟨-, -, -, g4, g5, -, -⟩ :=
      confirmCorrectMid_fields a.2 (ensureCardData fetch c) (markRemember fetch true w)
    refine ⟨?_, ?_, ?_, ?_⟩
    · rw [confirmCorrectMid_stage, hst]
    · rw [g5, haw, resolveAt_map_word]
    · rw [g4, f4m]
    · rw [g5, haw, resolveAt_length]

/-- The weak set after one complete card interaction in a weak loop whose
set currently contains the card's word: the word is removed exactly when the
decision clears it. -/
lemma backOpMid_weakSet (fetch : Fetch) (a : Bool × Bool) (w : World)
    (c : PlanItem) (h : w.fc.current = some c)
    (hstage : w.fc.stage = Stage.weakloop)
    (hmem : c.word ∈ w.fc.weakSet) :
    (backOpMid fetch a c w).fc.weakSet
      = if correctOf a then setDelete w.fc.weakSet c.word
        else w.fc.weakSet := by
  have hw : (ensureCardData fetch c).word = c.word := ensureCardData_word fetch c
  have hmrw := markRemember_weakSet fetch a.1 w c h
  obtain ⟨hmst, -, -⟩ := markRemember_more fetch a.1 w c h
  unfold backOpMid
  cases ha : a.1 with
  | false =>
    rw [ha] at hmrw hmst
    simp only [Bool.false_eq_true, if_false] at hmrw ⊢
    rw [nextAfterShowMid_weakSet, hw, hmrw]
    rw [setAdd_of_mem _ _ hmem, setAdd_of_mem _ _ hmem]
    simp [correctOf, ha]
  | true =>
    rw [ha] at hmrw hmst
    simp only [if_true] at hmrw ⊢
    rw [confirmCorrectMid_weakSet, hw, hmst, hstage, hmrw]
    cases ha2 : a.2 with
    | false =>
      simp [correctOf, ha, ha2, setAdd_of_mem _ _ hmem]
    | true =>
      simp [correctOf, ha, ha2]

lemma startGroup_weakSet (fetch : Fetch) (w : World) :
    (_startGroup fetch w).fc.weakSet = [] := by
  unfold _startGroup
  rw [saveSession_fc, show_weakSet]

lemma nextGroup_weakSet_of_empty (fetch : Fetch) (w : World)
    (h : w.fc.weakSet = []) : (_nextGroup fetch w).fc.weakSet = [] := by
  rw [nextGroup_eq]
  split
  · exact h
  · exact startGroup_weakSet fetch _

lemma startWeakLoop_current (fetch : Fetch) (w : World)
    (h : w.fc.weakSet ≠ []) :
    (_startWeakLoop fetch w).fc.current
      = (_startWeakLoop fetch w).fc.activeWords[
          (_startWeakLoop fetch w).fc.activeIndex]? := by
  have hlen : w.fc.weakSet.length ≠ 0 := by
    simpa [List.length_eq_zero] using h
  have heq : _startWeakLoop fetch w
      = saveSession false (_show fetch 0 (weakRebuild w)) := by
    unfold _startWeakLoop; rw [if_neg hlen]
  have hrb : (weakRebuild w).fc.activeWords.length ≠ 0 := by
    simp [weakRebuild, hlen]
  obtain ⟨-, -, -, -, -, -, -, -, -, -, -, hcur, -, -⟩ :=
    show_spec fetch 0 (weakRebuild w) hrb
  rw [heq, saveSession_fc]
  exact hcur

/-- Cast form of the index clamp: advancing from a Nat index. -/
lemma clampIdx_succ_coe (k len : Nat) (h : k + 1 < len) :
    clampIdx ((k : Int) + 1) len = k + 1 := by
  unfold clampIdx; omega

/-- One complete card interaction advances the pass invariant: in the middle
of the pass it moves to the next item; on the last item it either starts the
next weak-loop pass over exactly the words not cleared in this one, or — when
everything was cleared — leaves the weak loop with an empty weak set. -/
lemma itemAct_step (fetch : Fetch) (act : String → Bool × Bool)
    (S : List String) (k : Nat) (w : World) (hnd : S.Nodup)
    (hM : MidPass act S k w) :
    (k + 1 < S.length →
      MidPass act S (k + 1) (itemAct fetch (act (curWord w)) w)) ∧
    (k + 1 = S.length →
      (S.filter (fun x => !(correctOf (act x))) ≠ [] →
        ∀ act2, MidPass act2 (S.filter (fun x => !(correctOf (act x)))) 0
          (itemAct fetch (act (curWord w)) w)) ∧
      (S.filter (fun x => !(correctOf (act x))) = [] →
        (itemAct fetch (act (curWord w)) w).fc.weakSet = [])) := by
  obtain ⟨hstage, hmap, hidx, hk, hcur, hws⟩ := hM
  have hlen : w.fc.activeWords.length = S.length := by
    have := congrArg List.length hmap
    simpa using this
  have hks : k < w.fc.activeWords.length := by omega
  obtain ⟨c, hc⟩ : ∃ c, w.fc.activeWords[k]? = some c :=
    ⟨_, List.getElem?_eq_getElem hks⟩
  have hcur' : w.fc.current = some c := by rw [hcur, hc]
  have hx : S[k]? = some c.word := by
    rw [← hmap, List.getElem?_map, hc]
    rfl
  have hcw : curWord w = c.word := by
    unfold curWord; rw [hcur']; rfl
  rw [hcw]
  have hdropk : S.drop k = c.word :: S.drop (k + 1) := by
    rw [List.drop_eq_getElem_cons hk]
    congr 1
    have := List.getElem?_eq_getElem hk
    rw [this] at hx
    exact Option.some.inj hx
  have hmem : c.word ∈ w.fc.weakSet := by
    rw [hws, hdropk]; simp
  have hA : c.word ∉ (S.take k).filter (fun x => !(correctOf (act x))) :=
    fun hmemA =>
      not_mem_take_of_nodup S k c.word hnd hx (List.mem_of_mem_filter hmemA)
  have hB := not_mem_drop_succ_of_nodup S k c.word hnd hx
  have heq := itemAct_eq_next fetch (act c.word) w c hcur'
  obtain ⟨m1, m2, m3, m4⟩ := backOpMid_fields fetch (act c.word) w c hcur'
  have mws : (backOpMid fetch (act c.word) c w).fc.weakSet
      = (S.take (k + 1)).filter (fun x => !(correctOf (act x)))
        ++ S.drop (k + 1) := by
    rw [backOpMid_weakSet fetch _ w c hcur' hstage hmem, hws, hdropk,
      List.take_succ, hx, List.filter_append]
    by_cases hcorr : correctOf (act c.word) = true
    · rw [if_pos hcorr, setDelete_append_cons _ _ _ hA hB]
      have hone : (Option.some c.word).toList.filter
          (fun x => !(correctOf (act x))) = [] := by
        simp [hcorr]
      rw [hone, List.append_nil]
    · rw [if_neg hcorr]
      have hone : (Option.some c.word).toList.filter
          (fun x => !(correctOf (act x))) = [c.word] := by
        simp [hcorr]
      rw [hone]
      simp
  constructor
  · intro hk1
    have hlt : (backOpMid fetch (act c.word) c w).fc.activeIndex + 1
        < (backOpMid fetch (act c.word) c w).fc.activeWords.length := by
      rw [m3, m4, hidx, hlen]; omega
    have hnx : _next fetch (backOpMid fetch (act c.word) c w)
        = _show fetch
            (((backOpMid fetch (act c.word) c w).fc.activeIndex : Int) + 1)
            (backOpMid fetch (act c.word) c w) := by
      unfold _next; rw [if_pos hlt]
    rw [heq, hnx]
    have hmlen : (backOpMid fetch (act c.word) c w).fc.activeWords.length ≠ 0 := by
      rw [m4, hlen]; omega
    obtain ⟨-, -, -, -, s5, -, s7, -, s9, s10, s11, s12, -, -⟩ :=
      show_spec fetch (((backOpMid fetch (act c.word) c w).fc.activeIndex : Int) + 1)
        (backOpMid fetch (act c.word) c w) hmlen
    have hidx2 : (_show fetch
        (((backOpMid fetch (act c.word) c w).fc.activeIndex : Int) + 1)
        (backOpMid fetch (act c.word) c w)).fc.activeIndex = k + 1 := by
      rw [s9, m3, hidx, m4, hlen]
      exact clampIdx_succ_coe k S.length hk1
    rw [hidx2] at s12
    refine ⟨?_, ?_, hidx2, hk1, s12, ?_⟩
    · rw [s5, m1, hstage]
    · rw [s10, m2, hmap]
    · rw [s7, mws]
  · intro hend
    have hmws' : (backOpMid fetch (act c.word) c w).fc.weakSet
        = S.filter (fun x => !(correctOf (act x))) := by
      rw [mws, hend, List.take_length, List.drop_length, List.append_nil]
    have hnlt : ¬ ((backOpMid fetch (act c.word) c w).fc.activeIndex + 1
        < (backOpMid fetch (act c.word) c w).fc.activeWords.length) := by
      rw [m3, m4, hidx, hlen]; omega
    have hnfp : ¬ ((backOpMid fetch (act c.word) c w).fc.stage
        = Stage.firstpass) := by
      rw [m1, hstage]; intro hcon; cases hcon
    constructor
    · intro hne act2
      have hpos : 0 < (backOpMid fetch (act c.word) c w).fc.weakSet.length := by
        rw [hmws']
        exact List.length_pos.mpr hne
      have hnx : _next fetch (backOpMid fetch (act c.word) c w)
          = _startWeakLoop fetch (backOpMid fetch (act c.word) c w) := by
        unfold _next
        rw [if_neg hnlt, if_neg hnfp, if_pos hpos]
      have hne' : (backOpMid fetch (act c.word) c w).fc.weakSet ≠ [] := by
        rw [hmws']; exact hne
      obtain ⟨-, t2, t3, -, t5⟩ :=
        startWeakLoop_spec fetch (backOpMid fetch (act c.word) c w) hne'
      have tcur := startWeakLoop_current fetch (backOpMid fetch (act c.word) c w) hne'
      have tws := startWeakLoop_weakSet_of_ne fetch (backOpMid fetch (act c.word) c w) hne'
      rw [heq, hnx]
      refine ⟨t2, ?_, t3, ?_, ?_, ?_⟩
      · rw [t5, hmws']
      · exact List.length_pos.mpr hne
      · rw [t3] at tcur
        exact tcur
      · rw [tws, hmws']
        simp
    · intro hemp
      have hzero : ¬ (0 < (backOpMid fetch (act c.word) c w).fc.weakSet.length) := by
        rw [hmws', hemp]
        simp
      have hnx : _next fetch (backOpMid fetch (act c.word) c w)
          = _nextGroup fetch (backOpMid fetch (act c.word) c w) := by
        unfold _next
        rw [if_neg hnlt, if_neg hnfp, if_neg hzero]
      rw [heq, hnx]
      apply nextGroup_weakSet_of_empty
      rw [hmws', hemp]

lemma MidPass_zero_act (act act2 : String → Bool × Bool) (S : List String)
    (w : World) (h : MidPass act S 0 w) : MidPass act2 S 0 w := by
  obtain ⟨h1, h2, h3, h4, h5, h6⟩ := h
  refine ⟨h1, h2, h3, h4, h5, ?_⟩
  simpa using h6

lemma MidPass_weakSet_zero (act : String → Bool × Bool) (S : List String)
    (w : World) (h : MidPass act S 0 w) : w.fc.weakSet = S := by
  simpa using h.2.2.2.2.2

lemma runPassAux_spec (fetch : Fetch) (act : String → Bool × Bool)
    (S : List String) (hnd : S.Nodup) :
    ∀ m k w, MidPass act S k w → m + k = S.length →
      (S.filter (fun x => !(correctOf (act x))) ≠ [] →
        ∀ act2, MidPass act2 (S.filter (fun x => !(correctOf (act x)))) 0
          (runPassAux fetch act m w)) ∧
      (S.filter (fun x => !(correctOf (act x))) = [] →
        (runPassAux fetch act m w).fc.weakSet = []) := by
  intro m
  induction m with
  | zero =>
    intro k w hM hmk
    exact absurd hM.2.2.2.1 (by omega)
  | succ m ih =>
    intro k w hM hmk
    obtain ⟨hstep1, hstep2⟩ := itemAct_step fetch act S k w hnd hM
    by_cases hm0 : m = 0
    · subst hm0
      obtain ⟨he1, he2⟩ := hstep2 (by omega)
      exact ⟨fun hne act2 => he1 hne act2, fun hemp => he2 hemp⟩
    · exact ih k.succ (itemAct fetch (act (curWord w)) w)
        (hstep1 (by omega)) (by omega)

lemma runWeakPass_spec (fetch : Fetch) (act : String → Bool × Bool)
    (S : List String) (w : World) (hnd : S.Nodup) (hM : MidPass act S 0 w) :
    (S.filter (fun x => !(correctOf (act x))) ≠ [] →
      ∀ act2, MidPass act2 (S.filter (fun x => !(correctOf (act x)))) 0
        (runWeakPass fetch act w)) ∧
    (S.filter (fun x => !(correctOf (act x))) = [] →
      (runWeakPass fetch act w).fc.weakSet = []) := by
  have hlen : w.fc.activeWords.length = S.length := by
    have := congrArg List.length hM.2.1
    simpa using this
  unfold runWeakPass
  rw [hlen]
  exact runPassAux_spec fetch act S hnd S.length 0 w hM (by omega)

lemma weakPasses_sub (acts : Nat → String → Bool × Bool) (S : List String)
    (x : String) : ∀ n, x ∈ weakPasses acts S n → x ∈ S := by
  intro n
  induction n with
  | zero => exact id
  | succ n ih => exact fun h => ih (List.mem_of_mem_filter h)

lemma weakPasses_notmem_mono (acts : Nat → String → Bool × Bool)
    (S : List String) (x : String) (n m : Nat) (hnm : n ≤ m)
    (h : x ∉ weakPasses acts S n) : x ∉ weakPasses acts S m := by
  induction m, hnm using Nat.le_induction with
  | base => exact h
  | succ m hm ih => exact fun hc => ih (List.mem_of_mem_filter hc)

lemma stuck_mem (acts : Nat → String → Bool × Bool) (S : List String)
    (x : String) (hx : x ∈ S)
    (hstuck : ∀ n, x ∈ weakPasses acts S n → ¬ correctOf (acts n x) = true) :
    ∀ n, x ∈ weakPasses acts S n := by
  intro n
  induction n with
  | zero => exact hx
  | succ n ih =>
    have hf : correctOf (acts n x) = false := by
      cases hcase : correctOf (acts n x)
      · rfl
      · exact absurd hcase (hstuck n ih)
    exact List.mem_filter.mpr ⟨ih, by simp [hf]⟩

lemma exists_allGone (acts : Nat → String → Bool × Bool) (S : List String) :
    ∀ L : List String, (∀ x ∈ L, ∃ n, x ∉ weakPasses acts S n) →
      ∃ N, ∀ x ∈ L, x ∉ weakPasses acts S N := by
  intro L
  induction L with
  | nil => exact fun _ => ⟨0, by simp⟩
  | cons a t ih =>
    intro h
    obtain ⟨Na, hNa⟩ := h a (by simp)
    obtain ⟨Nt, hNt⟩ := ih (fun x hx => h x (by simp [hx]))
    refine ⟨max Na Nt, ?_⟩
    intro x hx
    rcases List.mem_cons.mp hx with rfl | hx'
    · exact weakPasses_notmem_mono acts S x Na _ (le_max_left _ _) hNa
    · exact weakPasses_notmem_mono acts S x Nt _ (le_max_right _ _) (hNt x hx')

/-- While no pass has emptied the weak set, the scheduler sits at the start of
pass `n` over exactly `weakPasses acts S n`, which stays duplicate-free. -/
lemma passes_invariant (fetch : Fetch) (acts : Nat → String → Bool × Bool)
    (S : List String) (w : World) (hnd : S.Nodup)
    (hM : MidPass (acts 0) S 0 w) :
    ∀ n, (∀ m, m ≤ n → weakPasses acts S m ≠ []) →
      MidPass (acts n) (weakPasses acts S n) 0 (iterPasses fetch acts n w) ∧
      (weakPasses acts S n).Nodup := by
  intro n
  induction n with
  | zero => exact fun _ => ⟨hM, hnd⟩
  | succ n ih =>
    intro h
    obtain ⟨hMn, hndn⟩ := ih (fun m hm => h m (by omega))
    obtain ⟨h1, -⟩ :=
      runWeakPass_spec fetch (acts n) (weakPasses acts S n)
        (iterPasses fetch acts n w) hndn hMn
    exact ⟨h1 (h (n + 1) (le_refl _)) (acts (n + 1)), hndn.filter _⟩

/-- C8: a weak loop over the duplicate-free word list `S` terminates in
finitely many passes (the weak set eventually empties, at which point the
stage machine leaves the loop) if and only if every item of `S` is, in some
pass in which it still occurs, remembered and verified correct.  Because the
pass list is duplicate-free, each item is shown exactly once per pass, so
"verified correct without being re-marked weak in that same pass" is exactly
the decision `correctOf (acts n x)`.  An item whose decision is wrong in
every pass stays in the weak set at the start of every subsequent pass, so
the number of passes is unbounded.  `iterPasses` iterates the real card
operations (`markRemember`, `confirmCorrect` / `nextAfterShow`, `_next`);
`weakPasses` is the induced pure recurrence. -/
theorem claim_C8 (fetch : Fetch) (acts : Nat → String → Bool × Bool)
    (S : List String) (w : World) (hnd : S.Nodup)
    (hM : MidPass (acts 0) S 0 w) :
    ((∃ N, (iterPasses fetch acts N w).fc.weakSet = []) ↔
      (∀ x ∈ S, ∃ n, x ∈ weakPasses acts S n ∧ correctOf (acts n x) = true)) ∧
    (∀ x ∈ S, (∀ n, correctOf (acts n x) = false) →
      ∀ n, x ∈ (iterPasses fetch acts n w).fc.weakSet) := by
  have hSne : S ≠ [] := by
    have := hM.2.2.2.1
    intro h0
    rw [h0] at this
    simp at this
  have hinv := passes_invariant fetch acts S w hnd hM
  constructor
  · constructor
    · rintro ⟨N, hN⟩ x hx
      by_contra hcon
      push_neg at hcon
      have hmem : ∀ n, x ∈ weakPasses acts S n :=
        stuck_mem acts S x hx (fun n hn hc => hcon n hn hc)
      have hne : ∀ m, weakPasses acts S m ≠ [] := by
        intro m h0
        have := hmem m
        rw [h0] at this
        simp at this
      have hMN := (hinv N (fun m _ => hne m)).1
      have := MidPass_weakSet_zero _ _ _ hMN
      rw [hN] at this
      exact hne N this.symm
    · intro hall
      have hgone : ∀ x ∈ S, ∃ n, x ∉ weakPasses acts S n := by
        intro x hx
        obtain ⟨n, hn, hcorr⟩ := hall x hx
        refine ⟨n + 1, ?_⟩
        intro hc
        have := (List.mem_filter.mp hc).2
        simp [hcorr] at this
      obtain ⟨N, hN⟩ := exists_allGone acts S S hgone
      have hempN : weakPasses acts S N = [] := by
        apply List.eq_nil_iff_forall_not_mem.mpr
        intro x hxm
        exact hN x (weakPasses_sub acts S x N hxm) hxm
      have hex : ∃ n, weakPasses acts S n = [] := ⟨N, hempN⟩
      have hN0 : weakPasses acts S (Nat.find hex) = [] := Nat.find_spec hex
      have hmin : ∀ m, m < Nat.find hex → weakPasses acts S m ≠ [] :=
        fun m hm => Nat.find_min hex hm
      have hpos : Nat.find hex ≠ 0 := by
        intro h0
        rw [h0] at hN0
        exact hSne hN0
      obtain ⟨n0, he⟩ : ∃ n0, Nat.find hex = n0 + 1 := ⟨Nat.find hex - 1, by omega⟩
      obtain ⟨hMn, hndn⟩ := hinv n0 (fun m hm => hmin m (by omega))
      obtain ⟨-, h2⟩ :=
        runWeakPass_spec fetch (acts n0) (weakPasses acts S n0)
          (iterPasses fetch acts n0 w) hndn hMn
      refine ⟨n0 + 1, h2 ?_⟩
      show weakPasses acts S (n0 + 1) = []
      rw [← he]
      exact hN0
  · intro x hx hstuck n
    have hmem : ∀ m, x ∈ weakPasses acts S m :=
      stuck_mem acts S x hx (fun m _ => by simp [hstuck m])
    have hne : ∀ m, weakPasses acts S m ≠ [] := by
      intro m h0
      have := hmem m
      rw [h0] at this
      simp at this
    have hMn := (hinv n (fun m _ => hne m)).1
    rw [MidPass_weakSet_zero _ _ _ hMn]
    exact hmem n

theorem claim_C8_witness :
    (["alpha"] : List String).Nodup ∧
    MidPass (actsAllCorrect 0) ["alpha"] 0 sampleC8W ∧
    (((∃ N, (iterPasses fetch0 actsAllCorrect N sampleC8W).fc.weakSet = []) ↔
      (∀ x ∈ (["alpha"] : List String), ∃ n,
        x ∈ weakPasses actsAllCorrect ["alpha"] n ∧
        correctOf (actsAllCorrect n x) = true)) ∧
     (∀ x ∈ (["alpha"] : List String),
       (∀ n, correctOf (actsAllCorrect n x) = false) →
       ∀ n, x ∈ (iterPasses fetch0 actsAllCorrect n sampleC8W).fc.weakSet)) :=
  ⟨by decide, by decide,
    claim_C8 fetch0 actsAllCorrect ["alpha"] sampleC8W (by decide) (by decide)⟩

end AppJs
